import Mathlib

/-! # distfiles: upload verification and archive extraction

A shallow embedding of the Go sources

* internal/views/views.go (reSha512, Health, report, Upload),
* internal/tarfile/tarfile.go (Untar),
* internal/settings/settings.go (getString, Get),

together with models of the library calls they make (regexp, encoding/hex,
crypto/sha512, path/filepath, os), followed by theorems about them.

Go strings are modelled as lists of characters, byte slices as lists of
naturals below 256.
-/

namespace Distfiles

/-- A Go string. -/
abbrev Str := List Char

/-- A Go byte slice. -/
abbrev Bytes := List Nat

/-! ## regexp: a backtracking matcher for the fragment used by reSha512 -/

/-- Regular expressions (the constructs occurring in views.go). -/
inductive Regex where
  | bol : Regex
  | eol : Regex
  | lit (c : Char) : Regex
  | cls (ranges : List (Char × Char)) : Regex
  | anyNotNL : Regex
  | seq (a b : Regex) : Regex
  | alt (a b : Regex) : Regex
  | rep (r : Regex) (n : Nat) : Regex
  | plus (r : Regex) : Regex
  | group (i : Nat) (r : Regex) : Regex

/-- Capture groups recorded so far: group index and captured text. -/
abbrev Caps := List (Nat × Str)

/-- One way of matching: the unconsumed rest of the text and the captures. -/
abbrev Thread := Str × Caps

/-- Exactly n repetitions of a step, in priority order. -/
def Regex.iter (step : Str → Caps → List Thread) : Nat → Str → Caps → List Thread
  | 0, s, c => [(s, c)]
  | n + 1, s, c => (step s c).flatMap fun r => Regex.iter step n r.1 r.2

/-- One or more repetitions of a step, greedy: longer matches come first.
An iteration that consumes nothing is not repeated. -/
def Regex.many1 (step : Str → Caps → List Thread) : Nat → Str → Caps → List Thread
  | 0, _, _ => []
  | fuel + 1, s, c =>
    (step s c).flatMap fun r =>
      (if r.1.length < s.length then Regex.many1 step fuel r.1 r.2 else []) ++ [r]

/-- All ways of matching r at the start of s, in priority order (leftmost-first
semantics of Go regexp). n is the length of the whole text, so that
s.length = n holds exactly at the beginning of the text. -/
def Regex.run : Regex → Nat → Str → Caps → List Thread
  | .bol, n, s, c => if s.length = n then [(s, c)] else []
  | .eol, _, s, c => if s = [] then [(s, c)] else []
  | .lit x, _, s, c =>
    match s with
    | y :: t => if y = x then [(t, c)] else []
    | [] => []
  | .cls rs, _, s, c =>
    match s with
    | y :: t => if rs.any (fun r => decide (r.1 ≤ y) && decide (y ≤ r.2)) then [(t, c)] else []
    | [] => []
  | .anyNotNL, _, s, c =>
    match s with
    | y :: t => if y = Char.ofNat 10 then [] else [(t, c)]
    | [] => []
  | .seq a b, n, s, c => (a.run n s c).flatMap fun r => b.run n r.1 r.2
  | .alt a b, n, s, c => a.run n s c ++ b.run n s c
  | .rep r k, n, s, c => Regex.iter (r.run n) k s c
  | .plus r, n, s, c => Regex.many1 (r.run n) (s.length + 1) s c
  | .group i r, n, s, c =>
    (r.run n s c).map fun t => (t.1, (i, s.take (s.length - t.1.length)) :: c)

/-- Number of capture groups (regexp.NumSubexp). -/
def Regex.numSubexp : Regex → Nat
  | .seq a b => a.numSubexp + b.numSubexp
  | .alt a b => a.numSubexp + b.numSubexp
  | .rep r _ => r.numSubexp
  | .plus r => r.numSubexp
  | .group _ r => r.numSubexp + 1
  | _ => 0

/-- Leftmost match: the first start position (a suffix of the text) at which
the expression matches, with the highest-priority thread there. -/
def Regex.search (re : Regex) (n : Nat) : Str → Option (Str × Thread)
  | [] =>
    match re.run n [] [] with
    | t :: _ => some ([], t)
    | [] => none
  | x :: s =>
    match re.run n (x :: s) [] with
    | t :: _ => some (x :: s, t)
    | [] => Regex.search re n s

/-- Text captured by group i, the empty string when the group did not
take part in the match. -/
def capture (c : Caps) (i : Nat) : Str :=
  match c.lookup i with
  | some s => s
  | none => []

/-- Model of (*Regexp).FindStringSubmatch: the nil slice (here the empty
list) when there is no match, otherwise the whole match followed by the text of
each capture group. -/
def Regex.FindStringSubmatch (re : Regex) (s : Str) : List Str :=
  match re.search s.length s with
  | none => []
  | some (from_, t) =>
    from_.take (from_.length - t.1.length) ::
      (List.range re.numSubexp).map fun i => capture t.2 (i + 1)

/-- The pattern of views.go:
^([0-9a-f]{128}) (\*| )(.+)$ -/
def reSha512 : Regex :=
  .seq .bol
    (.seq (.group 1 (.rep (.cls [('0', '9'), ('a', 'f')]) 128))
      (.seq (.lit ' ')
        (.seq (.group 2 (.alt (.lit '*') (.lit ' ')))
          (.seq (.group 3 (.plus .anyNotNL)) .eol))))

/-! ## strings, encoding/hex, crypto/subtle -/

/-- Model of strings.HasPrefix on byte strings. -/
def bytesHasPrefix : Bytes → Bytes → Bool
  | _, [] => true
  | [], _ :: _ => false
  | x :: xs, y :: ys => x == y && bytesHasPrefix xs ys

/-- Does the text start with the given text? -/
def startsWith : Str → Str → Bool
  | _, [] => true
  | [], _ :: _ => false
  | x :: xs, y :: ys => x == y && startsWith xs ys

/-- Model of strings.Contains. -/
def Contains : Str → Str → Bool
  | [], sub => sub.isEmpty
  | x :: xs, sub => startsWith (x :: xs) sub || Contains xs sub

/-- Model of strings.ContainsAny. -/
def ContainsAny (s chars : Str) : Bool := s.any fun c => chars.contains c

/-- Length of a Go string: the number of bytes of its UTF-8 encoding. -/
def len (s : Str) : Nat := (s.map Char.utf8Size).sum

/-- Conversion []byte(s): the UTF-8 encoding of the text. -/
def toBytes (s : Str) : Bytes := s.flatMap fun c => (String.utf8EncodeChar c).map UInt8.toNat

/-- Value of a hexadecimal digit (encoding/hex accepts both cases). -/
def fromHexChar (c : Char) : Option Nat :=
  if '0' ≤ c ∧ c ≤ '9' then some (c.toNat - 48)
  else if 'a' ≤ c ∧ c ≤ 'f' then some (c.toNat - 87)
  else if 'A' ≤ c ∧ c ≤ 'F' then some (c.toNat - 55)
  else none

/-- Model of hex.DecodeString: none stands for an error (odd length or a
character that is no hexadecimal digit). -/
def DecodeString : Str → Option Bytes
  | [] => some []
  | [_] => none
  | a :: b :: rest =>
    match fromHexChar a, fromHexChar b, DecodeString rest with
    | some x, some y, some bs => some ((x * 16 + y) :: bs)
    | _, _, _ => none

/-- Model of subtle.ConstantTimeCompare on the bytes of two strings. -/
def ConstantTimeCompare (x y : Str) : Nat := if x = y then 1 else 0

/-- Membership in a character class. -/
def inClass (rs : List (Char × Char)) (y : Char) : Bool :=
  rs.any (fun r => decide (r.1 ≤ y) && decide (y ≤ r.2))

/-- The character class of reSha512. -/
def hexRanges : List (Char × Char) := [('0', '9'), ('a', 'f')]

/-! ## crypto/sha512 (FIPS 180-4), on 64-bit words kept below 2^64 -/

namespace sha512

/-- The eighty round constants. -/
def K : List Nat :=
  [
    0x428a2f98d728ae22, 0x7137449123ef65cd, 0xb5c0fbcfec4d3b2f, 0xe9b5dba58189dbbc,
   0x3956c25bf348b538, 0x59f111f1b605d019, 0x923f82a4af194f9b, 0xab1c5ed5da6d8118,
   0xd807aa98a3030242, 0x12835b0145706fbe, 0x243185be4ee4b28c, 0x550c7dc3d5ffb4e2,
   0x72be5d74f27b896f, 0x80deb1fe3b1696b1, 0x9bdc06a725c71235, 0xc19bf174cf692694,
   0xe49b69c19ef14ad2, 0xefbe4786384f25e3, 0xfc19dc68b8cd5b5, 0x240ca1cc77ac9c65,
   0x2de92c6f592b0275, 0x4a7484aa6ea6e483, 0x5cb0a9dcbd41fbd4, 0x76f988da831153b5,
   0x983e5152ee66dfab, 0xa831c66d2db43210, 0xb00327c898fb213f, 0xbf597fc7beef0ee4,
   0xc6e00bf33da88fc2, 0xd5a79147930aa725, 0x6ca6351e003826f, 0x142929670a0e6e70,
   0x27b70a8546d22ffc, 0x2e1b21385c26c926, 0x4d2c6dfc5ac42aed, 0x53380d139d95b3df,
   0x650a73548baf63de, 0x766a0abb3c77b2a8, 0x81c2c92e47edaee6, 0x92722c851482353b,
   0xa2bfe8a14cf10364, 0xa81a664bbc423001, 0xc24b8b70d0f89791, 0xc76c51a30654be30,
   0xd192e819d6ef5218, 0xd69906245565a910, 0xf40e35855771202a, 0x106aa07032bbd1b8,
   0x19a4c116b8d2d0c8, 0x1e376c085141ab53, 0x2748774cdf8eeb99, 0x34b0bcb5e19b48a8,
   0x391c0cb3c5c95a63, 0x4ed8aa4ae3418acb, 0x5b9cca4f7763e373, 0x682e6ff3d6b2b8a3,
   0x748f82ee5defb2fc, 0x78a5636f43172f60, 0x84c87814a1f0ab72, 0x8cc702081a6439ec,
   0x90befffa23631e28, 0xa4506cebde82bde9, 0xbef9a3f7b2c67915, 0xc67178f2e372532b,
   0xca273eceea26619c, 0xd186b8c721c0c207, 0xeada7dd6cde0eb1e, 0xf57d4f7fee6ed178,
   0x6f067aa72176fba, 0xa637dc5a2c898a6, 0x113f9804bef90dae, 0x1b710b35131c471b,
   0x28db77f523047d84, 0x32caab7b40c72493, 0x3c9ebe0a15c9bebc, 0x431d67c49c100d4c,
   0x4cc5d4becb3e42b6, 0x597f299cfc657e2a, 0x5fcb6fab3ad6faec, 0x6c44198c4a475817
  ]

/-- The word modulus 2^64. -/
def M : Nat := 2 ^ 64

/-- Rotate a 64-bit word right. -/
def rotr (x n : Nat) : Nat := ((x >>> n) ||| (x <<< (64 - n))) % M

/-- Message padding: a one bit, zeros up to 112 modulo 128 bytes, then the bit
length as a 128-bit big-endian number. -/
def pad (msg : Bytes) : Bytes :=
  let l := msg.length
  let z := (128 - (l + 17) % 128) % 128
  msg ++ [0x80] ++ List.replicate z 0 ++
    (List.range 16).map (fun i => (8 * l) / 256 ^ (15 - i) % 256)

/-- Big-endian value of a group of bytes. -/
def word (bs : Bytes) : Nat := bs.foldl (fun acc b => acc * 256 + b) 0

/-- The first k groups of n bytes. -/
def chunks (n : Nat) : Nat → Bytes → List Bytes
  | 0, _ => []
  | k + 1, bs => bs.take n :: chunks n k (bs.drop n)

/-- Extend the message schedule by k words. -/
def schedule : Nat → List Nat → List Nat
  | 0, w => w
  | k + 1, w =>
    let t := w.length
    let w15 := w.getD (t - 15) 0
    let w2 := w.getD (t - 2) 0
    let s0 := rotr w15 1 ^^^ rotr w15 8 ^^^ (w15 >>> 7)
    let s1 := rotr w2 19 ^^^ rotr w2 61 ^^^ (w2 >>> 6)
    schedule k (w ++ [(w.getD (t - 16) 0 + s0 + w.getD (t - 7) 0 + s1) % M])

/-- The eight working variables. -/
structure Regs where
  a : Nat
  b : Nat
  c : Nat
  d : Nat
  e : Nat
  f : Nat
  g : Nat
  h : Nat

/-- One round of the compression function, on a constant and a schedule word. -/
def round (r : Regs) (kw : Nat × Nat) : Regs :=
  let S1 := rotr r.e 14 ^^^ rotr r.e 18 ^^^ rotr r.e 41
  let ch := (r.e &&& r.f) ^^^ ((M - 1 - r.e) &&& r.g)
  let t1 := (r.h + S1 + ch + kw.1 + kw.2) % M
  let S0 := rotr r.a 28 ^^^ rotr r.a 34 ^^^ rotr r.a 39
  let maj := (r.a &&& r.b) ^^^ (r.a &&& r.c) ^^^ (r.b &&& r.c)
  let t2 := (S0 + maj) % M
  ⟨(t1 + t2) % M, r.a, r.b, r.c, (r.d + t1) % M, r.e, r.f, r.g⟩

/-- Compression of one 128-byte block into the hash state. -/
def block (h : Regs) (blk : Bytes) : Regs :=
  let w := schedule 64 ((chunks 8 16 blk).map word)
  let r := (K.zip w).foldl round h
  ⟨(h.a + r.a) % M, (h.b + r.b) % M, (h.c + r.c) % M, (h.d + r.d) % M,
   (h.e + r.e) % M, (h.f + r.f) % M, (h.g + r.g) % M, (h.h + r.h) % M⟩

/-- The eight bytes of a word, big-endian. -/
def wordBytes (x : Nat) : Bytes := (List.range 8).map (fun i => x / 256 ^ (7 - i) % 256)

/-- The SHA-512 digest (64 bytes) of a message: what sha512.New, io.Copy and
Sum(nil) compute in views.go. -/
def Sum512 (msg : Bytes) : Bytes :=
  let p := pad msg
  let r := (chunks 128 (p.length / 128) p).foldl block
    ⟨0x6a09e667f3bcc908, 0xbb67ae8584caa73b, 0x3c6ef372fe94f82b, 0xa54ff53a5f1d36f1,
     0x510e527fade682d1, 0x9b05688c2b3e6c1f, 0x1f83d9abfb41bd6b, 0x5be0cd19137e2179⟩
  [r.a, r.b, r.c, r.d, r.e, r.f, r.g, r.h].flatMap wordBytes

end sha512

/-! ## path/filepath (Unix) -/

/-- Model of strings.Split(s, "/"). -/
def splitPath : Str → List Str
  | [] => [[]]
  | c :: s =>
    if c = '/' then [] :: splitPath s
    else
      match splitPath s with
      | [] => [[c]]
      | h :: t => (c :: h) :: t

/-- Model of strings.Join(elems, "/"). -/
def joinPath : List Str → Str
  | [] => []
  | [a] => a
  | a :: b :: rest => a ++ '/' :: joinPath (b :: rest)

/-- One step of filepath.Clean on the next path element, out being the
elements written so far: empty and "." elements are dropped; ".." removes the
last written element when that is not itself "..", is dropped at the root of a
rooted path, and is kept otherwise. -/
def cleanStep (rooted : Bool) (out : List Str) (c : Str) : List Str :=
  if c = [] ∨ c = ['.'] then out
  else if c = ['.', '.'] then
    match out.getLast? with
    | some l => if l = ['.', '.'] then out ++ [c] else out.dropLast
    | none => if rooted then out else out ++ [c]
  else out ++ [c]

/-- Model of filepath.Clean. -/
def Clean (path : Str) : Str :=
  if path = [] then ['.']
  else
    let rooted := path.head? = some '/'
    let out := (splitPath path).foldl (cleanStep rooted) []
    if rooted then '/' :: joinPath out
    else if out = [] then ['.'] else joinPath out

/-- Model of filepath.Join: leading empty elements are ignored, the rest is
joined with slashes and cleaned; the result is empty when all elements are. -/
def Join (elem : List Str) : Str :=
  match elem.dropWhile (fun e => e.isEmpty) with
  | [] => []
  | es => Clean (joinPath es)

/-- Model of filepath.IsAbs. -/
def IsAbs (path : Str) : Bool := path.head? = some '/'

/-- The named elements of a path: its slash-separated elements other than
the empty one and ".". -/
def components (path : Str) : List Str :=
  (splitPath path).filter fun c => !(c.isEmpty || c == ['.'])

/-! ## os: a file system with directories, regular files and symbolic links

A state is a finite table from locations to nodes, a location being the list
of names leading from the root directory to an entry. Path names are resolved
as the kernel does: element by element from the root (absolute names) or the
working directory, entering directories, following symbolic links (at most 40)
and stepping to the parent on "..". Permission checks, storage limits and the
sharing of one inode by several hard links are not modelled; time stamps are
kept only where the program sets them. -/

/-- Error numbers of the system calls. -/
inductive Errno where
  | ENOENT | ENOTDIR | EEXIST | EISDIR | ENOTEMPTY | ELOOP | EPERM | EINVAL
  deriving DecidableEq, Repr

/-- A file system entry. The time stamp is the modification time set by
Chtimes, none when it was last set by the system clock. -/
inductive Node where
  | dir (mode : Nat) (mtime : Option Int) : Node
  | file (data : Bytes) (mode : Nat) (mtime : Option Int) : Node
  | symlink (target : Str) : Node
  deriving DecidableEq, Repr

/-- A location: the names from the root directory down to an entry. -/
abbrev Key := List Str

/-- A file system state. -/
abbrev FS := List (Key × Node)

/-- Model of FileInfo.IsDir. -/
def Node.IsDir : Node → Bool
  | .dir _ _ => true
  | _ => false

/-- Is the node a symbolic link? -/
def Node.isSymlink : Node → Bool
  | .symlink _ => true
  | _ => false

/-- The entry at a location; the root directory always exists. -/
def FS.get (fs : FS) (k : Key) : Option Node :=
  if k = [] then some (.dir 493 none) else fs.lookup k

/-- Remove the entry at a location. -/
def FS.erase (fs : FS) (k : Key) : FS := fs.filter fun e => !(e.1 == k)

/-- Create or replace the entry at a location. -/
def FS.set (fs : FS) (k : Key) (n : Node) : FS := (k, n) :: FS.erase fs k

/-- Remove a location and everything beneath it. -/
def FS.eraseTree (fs : FS) (k : Key) : FS := fs.filter fun e => !(k.isPrefixOf e.1)

/-- Does a directory have entries beneath it? -/
def FS.hasChild (fs : FS) (k : Key) : Bool :=
  fs.any fun e => k.isPrefixOf e.1 && !(e.1 == k)

/-- Outcome of walking along the elements of a path name. -/
inductive Walk where
  | done (k : Key) (n : Option Node) : Walk
  | follow (dir : Key) (rest : List Str) : Walk
  | fail (e : Errno) : Walk

/-- Walk from directory cur along path elements until the name is resolved
(done: the location and the entry there, if any; a missing entry is reported
only in last position, with its parent directory present), a symbolic link has
to be followed (follow: the directory to continue from and the remaining
elements, those of the link target first), or the walk fails. A link in last
position is followed only when followLast is set. -/
def walk (fs : FS) (followLast : Bool) : Key → List Str → Walk
  | cur, [] => .done cur (fs.get cur)
  | cur, c :: rest =>
    if c = [] ∨ c = ['.'] then walk fs followLast cur rest
    else if c = ['.', '.'] then walk fs followLast cur.dropLast rest
    else
      match fs.get (cur ++ [c]) with
      | none => if rest = [] then .done (cur ++ [c]) none else .fail .ENOENT
      | some (.dir _ _) => walk fs followLast (cur ++ [c]) rest
      | some (.file d m t) =>
        if rest = [] then .done (cur ++ [c]) (some (.file d m t)) else .fail .ENOTDIR
      | some (.symlink t) =>
        if rest = [] ∧ followLast = false then .done (cur ++ [c]) (some (.symlink t))
        else if t = [] then .fail .ENOENT
        else .follow (if IsAbs t then [] else cur) (splitPath t ++ rest)

/-- Resolve path elements from a directory, following at most fuel - 1
symbolic links. -/
def resolveFrom (fs : FS) (followLast : Bool) : Nat → Key → List Str → Except Errno (Key × Option Node)
  | 0, _, _ => .error .ELOOP
  | fuel + 1, cur, comps =>
    match walk fs followLast cur comps with
    | .done k n => .ok (k, n)
    | .follow d r => resolveFrom fs followLast fuel d r
    | .fail e => .error e

/-- Resolve a path name to a location and the entry there (none: the name is
free in an existing directory). -/
def resolve (fs : FS) (cwd : Key) (followLast : Bool) (path : Str) : Except Errno (Key × Option Node) :=
  if path = [] then .error .ENOENT
  else resolveFrom fs followLast 41 (if IsAbs path then [] else cwd) (splitPath path)

/-- Model of os.Lstat: the entry named by the path, a link in last position
not being followed. -/
def Lstat (fs : FS) (cwd : Key) (path : Str) : Except Errno Node :=
  match resolve fs cwd false path with
  | .ok (_, some n) => .ok n
  | .ok (_, none) => .error .ENOENT
  | .error e => .error e

/-- Model of os.Stat: as Lstat, following links. -/
def Stat (fs : FS) (cwd : Key) (path : Str) : Except Errno Node :=
  match resolve fs cwd true path with
  | .ok (_, some n) => .ok n
  | .ok (_, none) => .error .ENOENT
  | .error e => .error e

/-- Model of os.Mkdir. -/
def Mkdir (fs : FS) (cwd : Key) (path : Str) (perm : Nat) : Except Errno FS :=
  match resolve fs cwd false path with
  | .ok (_, some _) => .error .EEXIST
  | .ok (k, none) => .ok (fs.set k (.dir perm none))
  | .error e => .error e

/-- The parent named by MkdirAll for a path: trailing separators are skipped,
then the last element; none when there is no parent to create (the scan stops
at index 0 or 1). -/
def parentPath (path : Str) : Option Str :=
  let i := (path.reverse.dropWhile fun c => c == '/').length
  let j := ((path.take i).reverse.dropWhile fun c => !(c == '/')).length
  if j > 1 then some (path.take (j - 1)) else none

/-- Model of os.MkdirAll, the recursion on the parent path bounded by fuel. -/
def mkdirAllAux (cwd : Key) (perm : Nat) : Nat → FS → Str → Except Errno FS
  | 0, _, _ => .error .EINVAL
  | fuel + 1, fs, path =>
    match Stat fs cwd path with
    | .ok dir => if dir.IsDir then .ok fs else .error .ENOTDIR
    | .error _ =>
      let made := match parentPath path with
        | some parent => mkdirAllAux cwd perm fuel fs parent
        | none => .ok fs
      match made with
      | .error e => .error e
      | .ok fs1 =>
        match Mkdir fs1 cwd path perm with
        | .ok fs2 => .ok fs2
        | .error e =>
          match Lstat fs1 cwd path with
          | .ok dir => if dir.IsDir then .ok fs1 else .error e
          | .error _ => .error e

/-- Model of os.MkdirAll. -/
def MkdirAll (fs : FS) (cwd : Key) (path : Str) (perm : Nat) : Except Errno FS :=
  mkdirAllAux cwd perm (path.length + 1) fs path

/-- Model of opening a file with O_CREATE and O_TRUNC (os.Create, and the
open inside ioutil.WriteFile): links are followed, an existing regular file is
emptied, a missing one is created with the given mode. Returns the location of
the open file. -/
def Create (fs : FS) (cwd : Key) (path : Str) (perm : Nat) : Except Errno (Key × FS) :=
  match resolve fs cwd true path with
  | .ok (k, some (.file _ m _)) => .ok (k, fs.set k (.file [] m none))
  | .ok (k, none) => .ok (k, fs.set k (.file [] perm none))
  | .ok (_, some _) => .error .EISDIR
  | .error e => .error e

/-- Writing the whole content of an open file (io.Copy into it, or Write). -/
def writeOpen (fs : FS) (k : Key) (data : Bytes) : FS :=
  match fs.get k with
  | some (.file _ m _) => fs.set k (.file data m none)
  | _ => fs

/-- Model of ioutil.WriteFile. -/
def WriteFile (fs : FS) (cwd : Key) (path : Str) (data : Bytes) (perm : Nat) : Except Errno FS :=
  match Create fs cwd path perm with
  | .ok (k, fs1) => .ok (writeOpen fs1 k data)
  | .error e => .error e

/-- Model of os.Remove: unlink, or rmdir of an empty directory. -/
def Remove (fs : FS) (cwd : Key) (path : Str) : Except Errno FS :=
  match resolve fs cwd false path with
  | .ok (k, some (.dir _ _)) =>
    if k = [] then .error .EPERM
    else if fs.hasChild k then .error .ENOTEMPTY else .ok (fs.erase k)
  | .ok (k, some _) => .ok (fs.erase k)
  | .ok (_, none) => .error .ENOENT
  | .error e => .error e

/-- Model of os.RemoveAll: a directory is removed with all it contains, any
other entry alone; a path that does not exist is no error, a path ending in
a "." element is refused. -/
def RemoveAll (fs : FS) (cwd : Key) (path : Str) : Except Errno FS :=
  if (splitPath path).getLast? = some ['.'] then .error .EINVAL
  else
    match resolve fs cwd false path with
    | .ok (k, some (.dir _ _)) => .ok (fs.eraseTree k)
    | .ok (k, some _) => .ok (fs.erase k)
    | .ok (_, none) => .ok fs
    | .error e => if e = .ENOENT then .ok fs else .error e

/-- Model of os.Symlink. -/
def Symlink (fs : FS) (cwd : Key) (oldname newname : Str) : Except Errno FS :=
  match resolve fs cwd false newname with
  | .ok (_, some _) => .error .EEXIST
  | .ok (k, none) => .ok (fs.set k (.symlink oldname))
  | .error e => .error e

/-- Model of os.Link: the new name receives a copy of the entry (the old name
is not followed when it is a link; directories are refused). -/
def Link (fs : FS) (cwd : Key) (oldname newname : Str) : Except Errno FS :=
  match resolve fs cwd false oldname with
  | .ok (_, some (.dir _ _)) => .error .EPERM
  | .ok (_, some n) =>
    match resolve fs cwd false newname with
    | .ok (_, some _) => .error .EEXIST
    | .ok (k, none) => .ok (fs.set k n)
    | .error e => .error e
  | .ok (_, none) => .error .ENOENT
  | .error e => .error e

/-- Model of os.Chtimes (links are followed); only the modification time is
kept. -/
def Chtimes (fs : FS) (cwd : Key) (path : Str) (mtime : Int) : Except Errno FS :=
  match resolve fs cwd true path with
  | .ok (k, some (.file d m _)) => .ok (fs.set k (.file d m (some mtime)))
  | .ok (k, some (.dir m _)) => if k = [] then .ok fs else .ok (fs.set k (.dir m (some mtime)))
  | .ok (_, some (.symlink _)) => .error .ELOOP
  | .ok (_, none) => .error .ENOENT
  | .error e => .error e

/-! ## Go error values -/

/-- A Go error value: io.EOF, an error made from a message (errors.New,
fmt.Errorf, or a library error), or a system call error. -/
inductive Err where
  | EOF : Err
  | text (msg : Str) : Err
  | sys (e : Errno) : Err
  deriving DecidableEq, Repr

deriving instance DecidableEq for Except

/-- Lift a system call result to a Go error. -/
def sysErr {α : Type} : Except Errno α → Except Err α
  | .ok a => .ok a
  | .error e => .error (.sys e)

/-! ## archive/tar and the decompressors, as seen by Untar -/

/-- The fields of tar.Header that Untar reads. -/
structure Header where
  Name : Str
  Typeflag : Char
  Mode : Int
  ModTime : Int
  Linkname : Str
  deriving DecidableEq, Repr

/-- Type flag of a hard link (tar.TypeLink). -/
def TypeLink : Char := '1'
/-- Type flag of a symbolic link (tar.TypeSymlink). -/
def TypeSymlink : Char := '2'
/-- Type flag of a directory (tar.TypeDir). -/
def TypeDir : Char := '5'
/-- Type flag of a regular file (tar.TypeReg). -/
def TypeReg : Char := '0'

/-- One archive member as the tar reader delivers it: the header returned by
Next and the result of reading the member to its end (ioutil.ReadAll). -/
structure TarEntry where
  hdr : Header
  body : Except Err Bytes
  deriving DecidableEq

/-- A decoded archive: the members Next returns, in order, and how the
stream ends (none: io.EOF, the regular end; some e: Next fails with e). -/
structure TarStream where
  entries : List TarEntry
  tail : Option Err
  deriving DecidableEq

/-- The decompressing readers of the libraries, composed with the tar reader:
gzip.NewReader and xz.NewReader can fail at once, bzip2.NewReader cannot. -/
structure Decoder where
  gzip : Bytes → Except Err TarStream
  bzip2 : Bytes → TarStream
  xz : Bytes → Except Err TarStream

/-- The compression containers Untar tells apart. -/
inductive Container where
  | gzip | bzip2 | xz
  deriving DecidableEq, Repr

/-! ## internal/tarfile/tarfile.go -/

/-- The five-byte buffer mn after rs.Read(mn) on a non-empty stream: the
first bytes of the stream, the rest of the buffer keeping its zeros. -/
def readMagic (rs : Bytes) : Bytes :=
  rs.take 5 ++ List.replicate (5 - (rs.take 5).length) 0

/-- The format detection of Untar on the buffer mn (tarfile.go lines 38-46);
none: "tarfile: unknown compression format". -/
def detect (mn : Bytes) : Option Container :=
  if bytesHasPrefix mn [0x1f, 0x8b, 0x08] then some .gzip
  else if bytesHasPrefix mn [0x42, 0x5a, 0x68] then some .bzip2
  else if bytesHasPrefix mn [0x5d, 0x00, 0x00, 0x80] ||
      bytesHasPrefix mn [0xfd, 0x37, 0x7a, 0x58, 0x5a] then some .xz
  else none

/-- The error of tarfile.go line 45. -/
def errUnknownFormat : Err := .text "tarfile: unknown compression format".toList

/-- The error of tarfile.go line 65. -/
def errInvalidFilename (name : Str) : Err := .text ("tarfile: invalid filename: ".toList ++ name)

/-- A deferred os.Chtimes call: path and modification time. -/
abbrev Deferred := Str × Int

/-- The cleanup of tarfile.go lines 70-81. -/
def untarCleanup (cwd : Key) (fs : FS) (fn : Str) : Except Err FS :=
  match Stat fs cwd fn with
  | .ok st => if st.IsDir then sysErr (RemoveAll fs cwd fn) else sysErr (Remove fs cwd fn)
  | .error _ => .ok fs

/-- The body of the loop of Untar for one archive member (lines 62-105): the
error that ends the extraction, if any, the file system after the member, and
the calls it deferred. -/
def untarEntry (cwd : Key) (path : Str) (fs : FS) (e : TarEntry) : Option Err × FS × List Deferred :=
  if Contains e.hdr.Name "..".toList then (some (errInvalidFilename e.hdr.Name), fs, [])
  else
    let fn := Join [path, e.hdr.Name]
    let m := (e.hdr.Mode % 512).toNat
    match untarCleanup cwd fs fn with
    | .error err => (some err, fs, [])
    | .ok fs1 =>
      if e.hdr.Typeflag = TypeLink then
        match Link fs1 cwd e.hdr.Linkname fn with
        | .ok fs2 => (none, fs2, [])
        | .error err => (some (.sys err), fs1, [])
      else if e.hdr.Typeflag = TypeSymlink then
        match Symlink fs1 cwd e.hdr.Linkname fn with
        | .ok fs2 => (none, fs2, [])
        | .error err => (some (.sys err), fs1, [])
      else if e.hdr.Typeflag = TypeDir then
        match Mkdir fs1 cwd fn m with
        | .ok fs2 => (none, fs2, [(fn, e.hdr.ModTime)])
        | .error err => (some (.sys err), fs1, [(fn, e.hdr.ModTime)])
      else if e.hdr.Typeflag = TypeReg then
        match e.body with
        | .error ferr => (some ferr, fs1, [])
        | .ok data =>
          match WriteFile fs1 cwd fn data m with
          | .error ferr => (some (.sys ferr), fs1, [])
          | .ok fs2 =>
            match Chtimes fs2 cwd fn e.hdr.ModTime with
            | .ok fs3 => (none, fs3, [])
            | .error err => (some (.sys err), fs2, [])
      else (none, fs1, [])

/-- The loop of Untar over the members (lines 53-106); the deferred calls are
collected most recent first. -/
def untarLoop (cwd : Key) (path : Str) :
    FS → List Deferred → List TarEntry → Option Err → Option Err × FS × List Deferred
  | fs, ds, [], tail => (tail, fs, ds)
  | fs, ds, e :: es, tail =>
    match untarEntry cwd path fs e with
    | (some err, fs1, d) => (some err, fs1, d ++ ds)
    | (none, fs1, d) => untarLoop cwd path fs1 (d ++ ds) es tail

/-- Run the deferred os.Chtimes calls, last deferred first; their errors are
discarded. -/
def runDeferred (cwd : Key) (fs : FS) (ds : List Deferred) : FS :=
  ds.foldl (fun acc d =>
    match Chtimes acc cwd d.1 d.2 with
    | .ok fs1 => fs1
    | .error _ => acc) fs

/-- The start of Untar (lines 20-49): the first bytes are read (an empty stream
makes Read fail with io.EOF), the stream is rewound, the container is detected
and its reader opened on the whole stream. -/
def openArchive (dec : Decoder) (rs : Bytes) : Except Err TarStream :=
  if rs = [] then .error .EOF
  else
    match detect (readMagic rs) with
    | some .gzip => dec.gzip rs
    | some .bzip2 => .ok (dec.bzip2 rs)
    | some .xz => dec.xz rs
    | none => .error errUnknownFormat

/-- Model of tarfile.Untar(path, rs) on a stream holding the bytes rs: the
returned error (none: nil) and the file system afterwards. -/
def Untar (dec : Decoder) (cwd : Key) (fs : FS) (path : Str) (rs : Bytes) : Option Err × FS :=
  match openArchive dec rs with
  | .error err => (some err, fs)
  | .ok tr =>
    let out := untarLoop cwd path fs [] tr.entries tr.tail
    (out.1, runDeferred cwd out.2.1 out.2.2)

/-! ## internal/settings/settings.go -/

/-- The settings of the process. -/
structure Settings where
  AuthRealm : Str
  AuthToken : Str
  ListenAddr : Str
  StorageDir : Str
  deriving DecidableEq, Repr

/-- The state the program runs in: the cached settings (the package variable
of settings.go), the environment variables, the working directory, the file
system, and the number of times Upload has started an extraction. -/
structure World where
  settings : Option Settings
  env : List (Str × Str)
  cwd : Key
  fs : FS
  extractions : Nat

/-- Model of settings.getString. -/
def getString (env : List (Str × Str)) (key : Str) (default : Str) (required : Bool) : Except Err Str :=
  match env.lookup key with
  | some v =>
    if required && v.isEmpty then .error (.text ("settings: ".toList ++ key ++ " empty".toList))
    else .ok v
  | none =>
    if required && default.isEmpty then .error (.text ("settings: ".toList ++ key ++ " missing".toList))
    else .ok default

/-- Model of settings.Get: the cached settings when present; otherwise they
are read from the environment, the storage directory is created when missing,
and the result is cached. -/
def Get (w : World) : Except Err Settings × World :=
  match w.settings with
  | some s => (.ok s, w)
  | none =>
    match getString w.env "DISTFILES_AUTH_REALM".toList "distfiles".toList true with
    | .error e => (.error e, w)
    | .ok realm =>
    match getString w.env "DISTFILES_AUTH_TOKEN".toList [] true with
    | .error e => (.error e, w)
    | .ok token =>
    match getString w.env "DISTFILES_LISTEN_ADDR".toList ":8000".toList true with
    | .error e => (.error e, w)
    | .ok addr =>
    match getString w.env "DISTFILES_STORAGE_DIR".toList "data".toList true with
    | .error e => (.error e, w)
    | .ok dir =>
      let s : Settings := ⟨realm, token, addr, dir⟩
      match Stat w.fs w.cwd dir with
      | .error e =>
        if e ≠ .ENOENT then (.error (.sys e), w)
        else
          match MkdirAll w.fs w.cwd dir 511 with
          | .error e1 => (.error (.sys e1), w)
          | .ok fs1 => (.ok s, { w with settings := some s, fs := fs1 })
      | .ok st =>
        if !st.IsDir then (.error (.text "DISTFILES_STORAGE_DIR is not a directory".toList), w)
        else (.ok s, { w with settings := some s })

/-! ## internal/views/views.go -/

/-- The result of r.FormFile("file"): http.ErrMissingFile, another error, or
the declared file name and the content of the uploaded file. -/
inductive FormFile where
  | missing : FormFile
  | failed : FormFile
  | file (Filename : Str) (content : Bytes) : FormFile

/-- An HTTP request as Upload reads it: the result of r.BasicAuth() (user
name and password, none when the request carries no Basic credentials), the
form values after r.ParseMultipartForm (none when parsing fails), and the
result of r.FormFile("file"). -/
structure Request where
  BasicAuth : Option (Str × Str)
  Form : Option (List (Str × List Str))
  File : FormFile

/-- An HTTP response: status code and body. -/
structure Response where
  code : Nat
  body : Str
  deriving DecidableEq, Repr

/-- Model of views.Health: status 200 and the line OK. -/
def Health : Response := ⟨200, "OK\n".toList⟩

/-- Model of views.report: http.Error with the tag as body (logging is not
modelled). -/
def report (code : Nat) (tag : String) : Response := ⟨code, tag.toList ++ "\n".toList⟩

/-- The values of a form field, r.Form[key]: none when the key is absent. -/
def formValues (form : List (Str × List Str)) (key : String) : Option (List Str) :=
  form.lookup key.toList

/-- The value of a required form field (views.go lines 62-82): none when the
key is absent or does not have exactly one value. -/
def singleValue (form : List (Str × List Str)) (key : String) : Option Str :=
  match formValues form key with
  | some [v] => some v
  | _ => none

/-- The test of views.go lines 175 and 190 on an optional form field: a
single value equal to "1" or "true". -/
def flagSet (form : List (Str × List Str)) (key : String) : Bool :=
  match formValues form key with
  | some [v] => v == "1".toList || v == "true".toList
  | _ => false

/-- The remove-then-link sequence of views.go lines 162-173 (LATEST) and
176-187 (LATEST_RELEASE): the tag of the failing step, if any, and the file
system afterwards. -/
def repoint (cwd : Key) (fs : FS) (p link : Str) (tagRemove tagLink : String) :
    Option String × FS :=
  let removed : Except Errno FS :=
    match Lstat fs cwd link with
    | .ok _ => Remove fs cwd link
    | .error _ => .ok fs
  match removed with
  | .error _ => (some tagRemove, fs)
  | .ok fs1 =>
    match Symlink fs1 cwd p link with
    | .error _ => (some tagLink, fs1)
    | .ok fs2 => (none, fs2)

/-- The second half of views.Upload (views.go lines 132-197), reached when all
checks have passed: the destination directory is made, the digest line and the
content are written, LATEST and, for a release, LATEST_RELEASE are repointed,
and the content is extracted when asked for. s are the settings, pn the project,
p the version tag, line the digest line, filename the file name and f the
content of the uploaded file. -/
def uploadPersist (dec : Decoder) (w : World) (s : Settings) (form : List (Str × List Str))
    (pn p line filename : Str) (f : Bytes) : Response × World :=
  let destdir := Join [s.StorageDir, pn, p]
  match MkdirAll w.fs w.cwd destdir 511 with
  | .error _ => (report 500 "DIRECTORY_CREATE", w)
  | .ok fs1 =>
  match WriteFile fs1 w.cwd (Join [destdir, filename ++ ".sha512".toList]) (toBytes line) 438 with
  | .error _ => (report 500 "SHA512_FILE", { w with fs := fs1 })
  | .ok fs2 =>
  match Create fs2 w.cwd (Join [destdir, filename]) 438 with
  | .error _ => (report 500 "FILE_CREATE", { w with fs := fs2 })
  | .ok (fp, fs3) =>
  let fs4 := writeOpen fs3 fp f
  match repoint w.cwd fs4 p (Join [s.StorageDir, pn, "LATEST".toList]) "LATEST_REMOVE" "LATEST" with
  | (some tag, fs5) => (report 500 tag, { w with fs := fs5 })
  | (none, fs5) =>
  let released : Option String × FS :=
    if flagSet form "release" then
      repoint w.cwd fs5 p (Join [s.StorageDir, pn, "LATEST_RELEASE".toList])
        "LATEST_RELEASE_REMOVE" "LATEST_RELEASE"
    else (none, fs5)
  match released with
  | (some tag, fs6) => (report 500 tag, { w with fs := fs6 })
  | (none, fs6) =>
  if flagSet form "extract" then
    match Untar dec w.cwd fs6 destdir f with
    | (some _, fs7) =>
      (report 500 "EXTRACT", { w with fs := fs7, extractions := w.extractions + 1 })
    | (none, fs7) => (Health, { w with fs := fs7, extractions := w.extractions + 1 })
  else (Health, { w with fs := fs6 })

/-- Model of views.Upload: the response and the state afterwards. The checks
of lines 40-130 are followed by uploadPersist, the rest of the function. -/
def Upload (dec : Decoder) (w0 : World) (r : Request) : Response × World :=
  match Get w0 with
  | (.error _, w) => (report 500 "SETTINGS", w)
  | (.ok s, w) =>
  match r.BasicAuth with
  | none => (report 401 "NOAUTH", w)
  | some (u, _) =>
  if ConstantTimeCompare u s.AuthToken = 0 then (report 401 "BADAUTH", w)
  else
  match r.Form with
  | none => (report 400 "BADFORM_FILE", w)
  | some form =>
  match singleValue form "project" with
  | none => (report 400 "BADFORM", w)
  | some pn =>
  match singleValue form "version" with
  | none => (report 400 "BADFORM", w)
  | some pv =>
  let p := pn ++ "-".toList ++ pv
  match singleValue form "sha512" with
  | none => (report 400 "BADFORM", w)
  | some line =>
  let sha512Matches := reSha512.FindStringSubmatch line
  if sha512Matches.length ≠ 4 then (report 400 "BADFORM_SHA512", w)
  else
  let filehash := sha512Matches.getD 1 []
  let filename := sha512Matches.getD 3 []
  if len filename < 4 then (report 400 "BADFORM_FILENAME_LENGTH", w)
  else if ContainsAny filename "/\\".toList then (report 400 "BADFORM_FILENAME_SLASH", w)
  else
  match r.File with
  | .missing => (report 400 "BADFORM_NOFILE", w)
  | .failed => (report 400 "BADFORM_FILE", w)
  | .file fhFilename f =>
  if fhFilename ≠ filename then (report 400 "BADFORM_SHA512_FILENAME", w)
  else
  match DecodeString filehash with
  | none => (report 400 "BADFORM_SHA512", w)
  | some sum =>
  if sha512.Sum512 f ≠ sum then (report 400 "BADFORM_SHA512_HASH", w)
  else uploadPersist dec w s form pn p line filename f

/-! ## Predicates used in the statements -/

/-- A lower-case hexadecimal digit. -/
def isLowerHex (c : Char) : Prop := ('0' ≤ c ∧ c ≤ '9') ∨ ('a' ≤ c ∧ c ≤ 'f')

instance isLowerHexDecidable (c : Char) : Decidable (isLowerHex c) := by
  unfold isLowerHex; infer_instance

/-- The digest-line grammar as the specification words it: 128 lower-case
hexadecimal characters, a space, a star or a space, and a file name of at least
one character. -/
def SpecDigestLine (line hash filename : Str) : Prop :=
  ∃ m, line = hash ++ ' ' :: m :: filename ∧ hash.length = 128 ∧ (∀ c ∈ hash, isLowerHex c) ∧
    (m = '*' ∨ m = ' ') ∧ filename ≠ []

/-- The digest lines reSha512 accepts: the grammar of the specification with a
file name free of line feeds. -/
def DigestLine (line hash filename : Str) : Prop :=
  SpecDigestLine line hash filename ∧ Char.ofNat 10 ∉ filename

/-- A line of the grammar the specification words, with a line feed in the file
name: 128 times the digit a, a space, a star, and the name a, line feed, b. -/
def lineWithLineFeed : Str := List.replicate 128 'a' ++ " *a\nb".toList

/-- Decoders that find no archive in any stream: the gzip and xz readers
fail on the header, the bzip2 reader on the first read. -/
def noArchive : Decoder :=
  ⟨fun _ => .error (.text "gzip: invalid header".toList),
   fun _ => ⟨[], some (.text "bzip2 data invalid: bad magic value".toList)⟩,
   fun _ => .error (.text "xz: invalid header magic bytes".toList)⟩

/-! ## Concrete states and requests used in witnesses and counterexamples -/

/-- Settings with the token "secret" and the default storage directory. -/
def demoSettings : Settings :=
  ⟨"distfiles".toList, "secret".toList, ":8000".toList, "data".toList⟩

/-- A state with the settings loaded, the working directory /srv and an empty
storage directory /srv/data. -/
def demoWorld : World :=
  { settings := some demoSettings
    env := []
    cwd := ["srv".toList]
    fs := [(["srv".toList], .dir 493 none), (["srv".toList, "data".toList], .dir 493 none)]
    extractions := 0 }

/-- An authenticated upload request with single project, version and sha512
fields, further form fields, and a file part. -/
def uploadRequest (pn pv line : String) (more : List (String × String)) (name : String)
    (content : Bytes) : Request :=
  { BasicAuth := some ("secret".toList, "x".toList)
    Form := some ([("project".toList, [pn.toList]), ("version".toList, [pv.toList]),
      ("sha512".toList, [line.toList])] ++ more.map fun e => (e.1.toList, [e.2.toList]))
    File := .file name.toList content }

/-- The bytes of the text hello. -/
def helloBytes : Bytes := [104, 101, 108, 108, 111]

/-- The SHA-512 digest of the empty message, in hexadecimal. -/
def emptyDigest : String :=
  "cf83e1357eefb8bdf1542850d66d8007d620e4050b5715dc83f4a921d36ce9ce" ++
  "47d0d13c5d85f2b0ff8318d2877eec2f63b931bd47417a81a538327af927da3e"

/-- A named path element: neither empty nor ".". -/
def named (c : Str) : Bool := !(c.isEmpty || c == ['.'])

/-- What Clean has written so far is well formed: every element is named and
free of separators. -/
def GoodOut (out : List Str) : Prop := ∀ c ∈ out, named c = true ∧ '/' ∉ c

/-- The output of Clean from the elements written: a leading separator for
rooted paths, "." when nothing was written. -/
def render (rooted : Bool) (out : List Str) : Str :=
  if rooted then '/' :: joinPath out
  else if out = [] then ['.'] else joinPath out

/-- A gzip-compressed tar archive (85 bytes) with one member: the directory
"./" (mode 0755, modification time 7). -/
def dotArchive : Bytes :=
  [
    31, 139, 8, 0, 0, 0, 0, 0, 2, 3, 237, 205, 187, 13, 128, 48,
    16, 68, 193, 43, 133, 10, 0, 7, 182, 235, 161, 5, 62, 253, 115, 34,
    116, 14, 18, 210, 76, 242, 54, 219, 121, 137, 215, 173, 169, 215, 250, 52,
    141, 29, 118, 207, 221, 74, 41, 49, 213, 248, 192, 117, 156, 219, 158, 151,
    1, 0, 0, 0, 0, 0, 0, 0, 0, 0, 255, 113, 3, 102, 134, 142,
    181, 0, 40, 0, 0
  ]

/-- A gzip-compressed tar archive (95 bytes) with one member: the symbolic
link cur to the name missing. -/
def linkArchive : Bytes :=
  [
    31, 139, 8, 0, 0, 0, 0, 0, 2, 3, 237, 206, 33, 14, 128, 48,
    16, 4, 192, 62, 133, 39, 20, 4, 125, 15, 65, 16, 4, 8, 10, 255,
    231, 130, 172, 175, 32, 153, 49, 123, 98, 147, 189, 245, 185, 82, 111, 57,
    148, 82, 190, 12, 109, 54, 119, 244, 198, 156, 231, 49, 13, 211, 177, 215,
    186, 159, 91, 215, 231, 158, 122, 47, 87, 204, 39, 0, 0, 0, 0, 0,
    0, 0, 0, 0, 248, 143, 23, 34, 78, 244, 92, 0, 40, 0, 0
  ]

/-- The SHA-512 digest of linkArchive, in hexadecimal. -/
def linkArchiveDigest : String :=
  "18cf60d880d8845de4bbc44ea4986d7debfbe55e780ae7ee49b696bf066f7a95" ++
  "bd85fa6b83b90e90a42bc6ab79522d48f5c7b59343ec32f558880806f3ad44c2"

/-- A gzip-compressed tar archive (148 bytes) with three members: the symbolic
link up to ".", the regular file up/victim holding the byte B, and the regular
file x/../y holding the byte C. -/
def traversalArchive : Bytes :=
  [
    31, 139, 8, 0, 0, 0, 0, 0, 2, 3, 237, 212, 193, 10, 132, 32,
    20, 133, 225, 251, 40, 61, 129, 58, 97, 215, 125, 243, 36, 209, 170, 197,
    64, 76, 57, 76, 111, 63, 78, 75, 23, 65, 11, 131, 240, 255, 54, 87,
    68, 80, 56, 28, 227, 44, 197, 185, 36, 132, 176, 207, 36, 159, 217, 250,
    127, 78, 125, 218, 106, 90, 83, 254, 109, 18, 151, 117, 120, 167, 43, 165,
    78, 113, 182, 159, 105, 92, 167, 87, 225, 252, 213, 251, 131, 252, 31, 89,
    254, 65, 93, 39, 205, 37, 153, 84, 158, 127, 47, 168, 217, 215, 26, 99,
    183, 242, 255, 255, 185, 254, 171, 182, 142, 254, 95, 225, 73, 5, 0, 0,
    0, 0, 0, 0, 0, 0, 0, 0, 0, 184, 189, 31, 51, 119, 148, 134,
    0, 40, 0, 0
  ]

/-- The members of dotArchive. -/
def dotMembers : List TarEntry :=
  [⟨⟨"./".toList, TypeDir, 493, 7, []⟩, .ok []⟩]

/-- The members of linkArchive. -/
def linkMembers : List TarEntry :=
  [⟨⟨"cur".toList, TypeSymlink, 511, 7, "missing".toList⟩, .ok []⟩]

/-- The members of traversalArchive. -/
def traversalMembers : List TarEntry :=
  [⟨⟨"up".toList, TypeSymlink, 511, 7, ".".toList⟩, .ok []⟩,
   ⟨⟨"up/victim".toList, TypeReg, 420, 7, []⟩, .ok [66]⟩,
   ⟨⟨"x/../y".toList, TypeReg, 420, 7, []⟩, .ok [67]⟩]

/-- Decoders that know the three archives above and find no archive in any
other stream. -/
def demoDecoder : Decoder :=
  ⟨fun rs =>
      if rs = dotArchive then .ok ⟨dotMembers, none⟩
      else if rs = linkArchive then .ok ⟨linkMembers, none⟩
      else if rs = traversalArchive then .ok ⟨traversalMembers, none⟩
      else .error (.text "gzip: invalid header".toList),
   fun _ => ⟨[], some (.text "bzip2 data invalid: bad magic value".toList)⟩,
   fun _ => .error (.text "xz: invalid header magic bytes".toList)⟩

/-- The state after linkArchive has been uploaded with extract=1 as a.tgz of
version 1.0 of the project demo. -/
def afterLinkUpload : World :=
  (Upload demoDecoder demoWorld
    (uploadRequest "demo" "1.0" (linkArchiveDigest ++ " *a.tgz") [("extract", "1")] "a.tgz"
      linkArchive)).2

/-- An ordinary path element: not empty, not "." and not "..". -/
def plain (c : Str) : Bool := !(c.isEmpty || c == ['.'] || c == ['.', '.'])

/-- Is there a directory at the location? -/
def isDirAt (fs : FS) (k : Key) : Bool :=
  match fs.get k with
  | some (.dir _ _) => true
  | _ => false

/-- Is there a symbolic link at the location? -/
def isLinkAt (fs : FS) (k : Key) : Bool :=
  match fs.get k with
  | some (.symlink _) => true
  | _ => false

/-- All directories on the way from cur down to, but not including, the last of
the names exist. -/
def dirsTo (fs : FS) : Key → List Str → Bool
  | _, [] => true
  | _, [_] => true
  | cur, c :: c2 :: rest => isDirAt fs (cur ++ [c]) && dirsTo fs (cur ++ [c]) (c2 :: rest)

/-- No symbolic link on the way from cur down the names; the last name is
checked only when last is set. -/
def linksFree (fs : FS) (last : Bool) : Key → List Str → Bool
  | _, [] => true
  | cur, [c] => !last || !isLinkAt fs (cur ++ [c])
  | cur, c :: c2 :: rest => !isLinkAt fs (cur ++ [c]) && linksFree fs last (cur ++ [c]) (c2 :: rest)

/-- A path whose elements, from the directory start, are the ordinary names
given: what the cleaned paths of Upload look like. -/
def LexPath (cwd : Key) (path : Str) (start : Key) (names : List Str) : Prop :=
  path ≠ [] ∧ (splitPath path = names ∨ splitPath path = [] :: names) ∧
    start = (if IsAbs path then [] else cwd) ∧ (∀ c ∈ names, plain c = true) ∧ names ≠ []

/-- The second table is the first one with the entry at one location replaced
(none: removed). -/
def Upd (fs fs1 : FS) (k : Key) (v : Option Node) : Prop :=
  ∀ q, fs1.get q = if q = k then v else fs.get q

/-- The second table is the first one with directories added at locations at
or above k, deeper than n elements. -/
def Grow (fs fs1 : FS) (k : Key) (n : Nat) : Prop :=
  ∀ q, fs1.get q = fs.get q ∨
    (fs.get q = none ∧ (∃ m t, fs1.get q = some (.dir m t)) ∧ q <+: k ∧ n < q.length)

theorem run_rep_cls (rs : List (Char × Char)) (n k : Nat) (s : Str) (c : Caps) :
    (Regex.rep (.cls rs) k).run n s c =
      if k ≤ s.length ∧ (s.take k).all (inClass rs) = true then [(s.drop k, c)] else [] := by
  simp only [Regex.run]
  induction k generalizing s with
  | zero => simp [Regex.iter]
  | succ k ih =>
    cases s with
    | nil => simp [Regex.iter, Regex.run]
    | cons y t =>
      simp only [Regex.iter, Regex.run]
      by_cases hy : inClass rs y = true
      · have hy2 : (rs.any fun r => decide (r.1 ≤ y) && decide (y ≤ r.2)) = true := hy
        simp only [hy2, if_true, List.flatMap_cons, List.flatMap_nil, List.append_nil, ih]
        simp [hy]
      · have hy2 : ¬ (rs.any fun r => decide (r.1 ≤ y) && decide (y ≤ r.2)) = true := hy
        simp only [hy2, if_false, List.flatMap_nil]
        simp [hy]

theorem run_any_cons (n : Nat) (y : Char) (t : Str) (c : Caps) :
    Regex.anyNotNL.run n (y :: t) c = if y = Char.ofNat 10 then [] else [(t, c)] := rfl

theorem run_any_nil (n : Nat) (c : Caps) : Regex.anyNotNL.run n [] c = [] := rfl

theorem many1_any_done (n fuel : Nat) (s : Str) (c : Caps) (h : s.length < fuel) :
    (Regex.many1 (Regex.anyNotNL.run n) fuel s c).filter (fun t => decide (t.1 = [])) =
      if s ≠ [] ∧ Char.ofNat 10 ∉ s then [([], c)] else [] := by
  induction s generalizing fuel with
  | nil =>
    cases fuel with
    | zero => simp [Regex.many1]
    | succ f => simp [Regex.many1, run_any_nil]
  | cons y t ih =>
    cases fuel with
    | zero => simp at h
    | succ f =>
      have hf : t.length < f := by simpa using h
      rw [Regex.many1, run_any_cons]
      by_cases hy : y = Char.ofNat 10
      · simp [hy]
      · have hy2 : ¬ Char.ofNat 10 = y := fun e => hy e.symm
        simp only [hy, if_false, List.flatMap_cons, List.flatMap_nil, List.append_nil,
          List.length_cons, Nat.lt_succ_self, if_true, List.filter_append, ih f hf]
        cases t with
        | nil => simp [hy2]
        | cons z u => simp [hy2]

theorem run_seq (a b : Regex) (n : Nat) (s : Str) (c : Caps) :
    (Regex.seq a b).run n s c = (a.run n s c).flatMap fun r => b.run n r.1 r.2 := rfl

theorem run_alt (a b : Regex) (n : Nat) (s : Str) (c : Caps) :
    (Regex.alt a b).run n s c = a.run n s c ++ b.run n s c := rfl

theorem run_group (i : Nat) (r : Regex) (n : Nat) (s : Str) (c : Caps) :
    (Regex.group i r).run n s c =
      (r.run n s c).map fun t => (t.1, (i, s.take (s.length - t.1.length)) :: c) := rfl

theorem run_plus (r : Regex) (n : Nat) (s : Str) (c : Caps) :
    (Regex.plus r).run n s c = Regex.many1 (r.run n) (s.length + 1) s c := rfl

theorem run_bol (n : Nat) (s : Str) (c : Caps) :
    Regex.bol.run n s c = if s.length = n then [(s, c)] else [] := rfl

theorem run_eol (n : Nat) (s : Str) (c : Caps) :
    Regex.eol.run n s c = if s = [] then [(s, c)] else [] := rfl

theorem run_lit_cons (x y : Char) (n : Nat) (t : Str) (c : Caps) :
    (Regex.lit x).run n (y :: t) c = if y = x then [(t, c)] else [] := rfl

theorem run_lit_nil (x : Char) (n : Nat) (c : Caps) : (Regex.lit x).run n [] c = [] := rfl

theorem flatMap_eol_map (n : Nat) (l : List Thread) (g : Thread → Thread)
    (hg : ∀ t, (g t).1 = t.1) :
    (l.map g).flatMap (fun r => Regex.eol.run n r.1 r.2) =
      (l.filter (fun t => decide (t.1 = []))).map g := by
  induction l with
  | nil => rfl
  | cons t l ih =>
    rw [List.map_cons, List.flatMap_cons, ih, List.filter_cons, run_eol, hg]
    by_cases ht : t.1 = []
    · simp only [ht, if_true, decide_True, List.map_cons, List.singleton_append]
      congr 1
      have h1 := hg t
      rw [ht] at h1
      exact Prod.ext h1.symm rfl
    · simp [ht]

theorem run_tail (n : Nat) (s : Str) (c : Caps) :
    (Regex.seq (.group 3 (.plus .anyNotNL)) .eol).run n s c =
      if s ≠ [] ∧ Char.ofNat 10 ∉ s then [([], (3, s) :: c)] else [] := by
  have h := flatMap_eol_map n (Regex.many1 (Regex.anyNotNL.run n) (s.length + 1) s c)
    (fun t => (t.1, (3, s.take (s.length - t.1.length)) :: c)) (fun _ => rfl)
  have h2 := many1_any_done n (s.length + 1) s c (Nat.lt_succ_self _)
  rw [run_seq, run_group, run_plus, h, h2]
  by_cases hs : s ≠ [] ∧ Char.ofNat 10 ∉ s
  · simp [hs]
  · simp [hs]

theorem run_reSha512 (s : Str) :
    reSha512.run s.length s [] =
      if 128 ≤ s.length ∧ (s.take 128).all (inClass hexRanges) = true then
        match s.drop 128 with
        | sp :: m :: f =>
          if sp = ' ' ∧ (m = '*' ∨ m = ' ') ∧ f ≠ [] ∧ Char.ofNat 10 ∉ f then
            [([], [(3, f), (2, [m]), (1, s.take 128)])]
          else []
        | _ => []
      else [] := by
  have hrep := run_rep_cls hexRanges s.length 128 s []
  unfold reSha512
  rw [run_seq, run_bol, if_pos rfl]
  simp only [List.flatMap_cons, List.flatMap_nil, List.append_nil]
  rw [run_seq, run_group]
  erw [hrep]
  by_cases h1 : 128 ≤ s.length ∧ (s.take 128).all (inClass hexRanges) = true
  · rw [if_pos h1, if_pos h1]
    have hlen : s.length - (s.drop 128).length = 128 := by
      simp only [List.length_drop]; omega
    simp only [List.map_cons, List.map_nil, List.flatMap_cons, List.flatMap_nil,
      List.append_nil, hlen]
    rcases hd : s.drop 128 with _ | ⟨sp, _ | ⟨m, f⟩⟩
    · simp [run_seq, run_lit_nil]
    · by_cases hsp : sp = ' ' <;>
        simp [hsp, run_seq, run_lit_cons, run_lit_nil, run_group, run_alt]
    · have ht := run_tail s.length f
      by_cases hsp : sp = ' '
      · by_cases hm1 : m = '*'
        · subst hm1 hsp
          simp [run_seq, run_lit_cons, run_group, run_alt] at ht ⊢
          simp [ht]
        · by_cases hm2 : m = ' '
          · subst hm2 hsp
            simp [run_seq, run_lit_cons, run_group, run_alt] at ht ⊢
            simp [ht]
          · simp [hsp, hm1, hm2, run_seq, run_lit_cons, run_group, run_alt]
      · simp [hsp, run_seq, run_lit_cons]
  · rw [if_neg h1, if_neg h1]
    rfl

theorem search_bol_none (r : Regex) (n : Nat) (s : Str) (h : s.length < n) :
    (Regex.seq .bol r).search n s = none := by
  induction s with
  | nil =>
    have : ¬ (0 = n) := by simp at h; omega
    simp [Regex.search, run_seq, run_bol, this]
  | cons x s ih =>
    have h1 : ¬ (s.length + 1 = n) := by simp at h; omega
    have h2 : s.length < n := by simp at h; omega
    simp [Regex.search, run_seq, run_bol, h1, ih h2]

theorem search_bol (r : Regex) (s : Str) :
    (Regex.seq .bol r).search s.length s =
      match (Regex.seq .bol r).run s.length s [] with
      | t :: _ => some (s, t)
      | [] => none := by
  cases s with
  | nil => rfl
  | cons x s =>
    rw [Regex.search]
    cases h : (Regex.seq .bol r).run (x :: s).length (x :: s) [] with
    | nil => exact search_bol_none r _ s (by simp)
    | cons t l => rfl

theorem inClass_hex (c : Char) : inClass hexRanges c = true ↔ isLowerHex c := by
  simp [inClass, hexRanges, isLowerHex]

theorem findSubmatch_reSha512 (s : Str) :
    reSha512.FindStringSubmatch s =
      if 128 ≤ s.length ∧ (s.take 128).all (inClass hexRanges) = true then
        match s.drop 128 with
        | sp :: m :: f =>
          if sp = ' ' ∧ (m = '*' ∨ m = ' ') ∧ f ≠ [] ∧ Char.ofNat 10 ∉ f then
            [s, s.take 128, [m], f]
          else []
        | _ => []
      else [] := by
  have hs := search_bol
    (.seq (.group 1 (.rep (.cls [('0', '9'), ('a', 'f')]) 128))
      (.seq (.lit ' ')
        (.seq (.group 2 (.alt (.lit '*') (.lit ' ')))
          (.seq (.group 3 (.plus .anyNotNL)) .eol)))) s
  have hr := run_reSha512 s
  unfold reSha512 at hr
  unfold Regex.FindStringSubmatch
  unfold reSha512
  rw [hs, hr]
  by_cases h1 : 128 ≤ s.length ∧ (s.take 128).all (inClass hexRanges) = true
  · rw [if_pos h1, if_pos h1]
    rcases hd : s.drop 128 with _ | ⟨sp, _ | ⟨m, f⟩⟩
    · rfl
    · rfl
    · by_cases h2 : sp = ' ' ∧ (m = '*' ∨ m = ' ') ∧ f ≠ [] ∧ Char.ofNat 10 ∉ f
      · simp only [if_pos h2]
        simp [Regex.numSubexp, capture, List.range, List.range.loop, List.lookup]
      · simp only [if_neg h2]
  · rw [if_neg h1, if_neg h1]

theorem findSubmatch_of_digestLine (line hash filename : Str)
    (h : DigestLine line hash filename) :
    ∃ m, reSha512.FindStringSubmatch line = [line, hash, [m], filename] := by
  obtain ⟨⟨m, hl, hlen, hhex, hm, hf⟩, hnl⟩ := h
  refine ⟨m, ?_⟩
  rw [findSubmatch_reSha512]
  have htake : line.take 128 = hash := by
    rw [hl, ← hlen]; simp
  have hdrop : line.drop 128 = ' ' :: m :: filename := by
    rw [hl, ← hlen]; simp
  have hc : 128 ≤ line.length ∧ (line.take 128).all (inClass hexRanges) = true := by
    constructor
    · rw [hl]; simp [hlen]
    · rw [htake, List.all_eq_true]
      intro c hc
      exact (inClass_hex c).2 (hhex c hc)
  rw [if_pos hc, hdrop]
  show (if ' ' = ' ' ∧ (m = '*' ∨ m = ' ') ∧ filename ≠ [] ∧ Char.ofNat 10 ∉ filename then
    [line, line.take 128, [m], filename] else []) = _
  rw [if_pos ⟨rfl, hm, hf, hnl⟩, htake]

theorem digestLine_of_findSubmatch (line : Str)
    (h : reSha512.FindStringSubmatch line ≠ []) :
    DigestLine line (line.take 128) (line.drop 130) := by
  rw [findSubmatch_reSha512] at h
  by_cases h1 : 128 ≤ line.length ∧ (line.take 128).all (inClass hexRanges) = true
  · rw [if_pos h1] at h
    rcases hd : line.drop 128 with _ | ⟨sp, _ | ⟨m, f⟩⟩
    · rw [hd] at h; exact absurd rfl h
    · rw [hd] at h; exact absurd rfl h
    · rw [hd] at h
      by_cases h2 : sp = ' ' ∧ (m = '*' ∨ m = ' ') ∧ f ≠ [] ∧ Char.ofNat 10 ∉ f
      · have h130 : line.drop 130 = f := by
          have : line.drop 130 = (line.drop 128).drop 2 := by simp
          rw [this, hd]; rfl
        have hline : line = line.take 128 ++ ' ' :: m :: f := by
          conv_lhs => rw [← List.take_append_drop 128 line, hd, h2.1]
        rw [h130]
        refine ⟨⟨m, hline, ?_, ?_, h2.2.1, h2.2.2.1⟩, h2.2.2.2⟩
        · simp [h1.1]
        · intro c hc
          exact (inClass_hex c).1 (List.all_eq_true.1 h1.2 c hc)
      · simp only [if_neg h2] at h; exact absurd rfl h
  · rw [if_neg h1] at h; exact absurd rfl h

/-! ## Upload up to the integrity check -/

theorem Get_cached (w : World) (s : Settings) (h : w.settings = some s) : Get w = (.ok s, w) := by
  simp [Get, h]

theorem ConstantTimeCompare_self (x : Str) : ConstantTimeCompare x x = 1 := by
  simp [ConstantTimeCompare]

theorem specDigestLine_parts (line hash filename : Str) (h : SpecDigestLine line hash filename) :
    hash = line.take 128 ∧ filename = line.drop 130 := by
  obtain ⟨m, hl, hlen, -⟩ := h
  constructor
  · rw [hl, ← hlen]; simp
  · have : line.drop 130 = (line.drop 128).drop 2 := by simp
    rw [this, hl, ← hlen]; simp

theorem upload_malformed_line (dec : Decoder) (w : World) (r : Request) (s : Settings) (pw : Str)
    (form : List (Str × List Str)) (pn pv line : Str)
    (hs : w.settings = some s) (ha : r.BasicAuth = some (s.AuthToken, pw))
    (hform : r.Form = some form)
    (hpn : singleValue form "project" = some pn) (hpv : singleValue form "version" = some pv)
    (hline : singleValue form "sha512" = some line)
    (hnil : reSha512.FindStringSubmatch line = []) :
    Upload dec w r = (report 400 "BADFORM_SHA512", w) := by
  simp [Upload, Get_cached w s hs, ha, ConstantTimeCompare_self, hform, hpn, hpv, hline, hnil]

/-- C7 (as amended): reSha512, as Upload uses it, accepts a line exactly when it
consists of 128 characters in 0-9a-f, one space, one character that is a star or
a space, and a file name of at least one character none of which is a line
feed. On such a line FindStringSubmatch returns four strings, the digest being
the first 128 characters of the line and the file name everything after the
130th character; on every other line it returns nil, and an authenticated
Upload with single project, version and sha512 fields answers 400
BADFORM_SHA512 and leaves the state as it was. -/
theorem reSha512_accepts_digest_lines (line : Str) :
    (∀ hash filename, DigestLine line hash filename →
      (reSha512.FindStringSubmatch line).length = 4 ∧
      (reSha512.FindStringSubmatch line).getD 1 [] = hash ∧
      (reSha512.FindStringSubmatch line).getD 3 [] = filename ∧
      hash = line.take 128 ∧ filename = line.drop 130) ∧
    ((¬ ∃ hash filename, DigestLine line hash filename) →
      reSha512.FindStringSubmatch line = [] ∧
      ∀ (dec : Decoder) (w : World) (r : Request) (s : Settings) (pw : Str)
        (form : List (Str × List Str)) (pn pv : Str),
        w.settings = some s → r.BasicAuth = some (s.AuthToken, pw) → r.Form = some form →
        singleValue form "project" = some pn → singleValue form "version" = some pv →
        singleValue form "sha512" = some line →
        Upload dec w r = (report 400 "BADFORM_SHA512", w)) := by
  constructor
  · intro hash filename h
    obtain ⟨m, hm⟩ := findSubmatch_of_digestLine line hash filename h
    have hp := specDigestLine_parts line hash filename h.1
    exact ⟨by rw [hm]; rfl, by rw [hm]; rfl, by rw [hm]; rfl, hp.1, hp.2⟩
  · intro hno
    have hnil : reSha512.FindStringSubmatch line = [] := by
      by_contra hne
      exact hno ⟨_, _, digestLine_of_findSubmatch line hne⟩
    refine ⟨hnil, ?_⟩
    intro dec w r s pw form pn pv hs hauth hform hpn hpv hline
    exact upload_malformed_line dec w r s pw form pn pv line hs hauth hform hpn hpv hline hnil

/-- C7 (counterexample): a line of the claimed form (128 hexadecimal digits, a
space, a star, a non-empty file name) that reSha512 rejects, its file name
containing a line feed. -/
theorem reSha512_rejects_line_feed :
    SpecDigestLine lineWithLineFeed (List.replicate 128 'a') "a\nb".toList ∧
      reSha512.FindStringSubmatch lineWithLineFeed = [] := by
  refine ⟨⟨'*', rfl, by simp, ?_, Or.inl rfl, by decide⟩, by decide!⟩
  intro c hc
  rw [List.eq_of_mem_replicate hc]
  exact Or.inr (by decide)

/-! ## Format detection -/

theorem detect_spec (rs : Bytes) :
    (detect (readMagic rs) = some .gzip ↔ bytesHasPrefix rs [0x1f, 0x8b, 0x08] = true) ∧
    (detect (readMagic rs) = some .bzip2 ↔ bytesHasPrefix rs [0x42, 0x5a, 0x68] = true) ∧
    (detect (readMagic rs) = some .xz ↔
      (bytesHasPrefix rs [0x5d, 0x00, 0x00, 0x80] = true ∨
        bytesHasPrefix rs [0xfd, 0x37, 0x7a, 0x58, 0x5a] = true)) := by
  rcases rs with _ | ⟨a, _ | ⟨b, _ | ⟨c, _ | ⟨d, _ | ⟨e, t⟩⟩⟩⟩⟩ <;>
    simp only [detect, readMagic, bytesHasPrefix, List.take, List.length, List.replicate,
      List.append, List.cons_append, List.nil_append, Bool.and_true, beq_iff_eq, Bool.and_eq_true,
      Bool.or_eq_true, Bool.false_eq_true, Bool.and_false, false_and, and_false, or_false,
      false_or, if_false, List.append_nil, Nat.sub_self, Nat.reduceSub, List.length_cons,
      List.length_nil, Nat.reduceAdd] <;>
    (repeat' split) <;> simp_all

/-- C8 (as amended): the format detection at the start of Untar looks at the
first five bytes only and selects gzip exactly for streams starting with
1f 8b 08, bzip2 exactly for streams starting with BZh, xz exactly for streams
starting with 5d 00 00 80 or fd 37 7a 58 5a (so at most one container is
selected); a non-empty stream starting with none of these fails with "tarfile:
unknown compression format", the empty stream fails with io.EOF (the error of
the read), and in both cases the file system is not touched. -/
theorem untar_format_detection (rs : Bytes) :
    detect (readMagic rs) = detect (readMagic (rs.take 5)) ∧
    (detect (readMagic rs) = some .gzip ↔ bytesHasPrefix rs [0x1f, 0x8b, 0x08] = true) ∧
    (detect (readMagic rs) = some .bzip2 ↔ bytesHasPrefix rs [0x42, 0x5a, 0x68] = true) ∧
    (detect (readMagic rs) = some .xz ↔
      (bytesHasPrefix rs [0x5d, 0x00, 0x00, 0x80] = true ∨
        bytesHasPrefix rs [0xfd, 0x37, 0x7a, 0x58, 0x5a] = true)) ∧
    (∀ (dec : Decoder) (cwd : Key) (fs : FS) (path : Str),
      rs ≠ [] → detect (readMagic rs) = none →
        Untar dec cwd fs path rs = (some errUnknownFormat, fs)) ∧
    (∀ (dec : Decoder) (cwd : Key) (fs : FS) (path : Str),
      Untar dec cwd fs path [] = (some .EOF, fs)) := by
  obtain ⟨h1, h2, h3⟩ := detect_spec rs
  refine ⟨?_, h1, h2, h3, ?_, ?_⟩
  · simp [readMagic, List.take_take]
  · intro dec cwd fs path hne hd
    simp [Untar, openArchive, hne, hd]
  · intro dec cwd fs path
    simp [Untar, openArchive]

/-- C8 (counterexample): the empty stream starts with none of the magic
sequences, yet Untar fails with io.EOF and not with the unknown-format
error. -/
theorem untar_empty_stream_is_eof :
    detect (readMagic []) = none ∧
      Untar noArchive [] [] "dest".toList [] = (some .EOF, []) ∧
      Err.EOF ≠ errUnknownFormat := by
  refine ⟨by decide, by decide, by decide⟩
theorem upload_code_authorized (dec : Decoder) (w : World) (r : Request) (s : Settings) (pw : Str)
    (hs : w.settings = some s) (ha : r.BasicAuth = some (s.AuthToken, pw)) :
    (Upload dec w r).1.code ≠ 401 := by
  unfold Upload uploadPersist
  rw [Get_cached w s hs]
  simp only [ha, ConstantTimeCompare_self]
  repeat' split
  all_goals simp_all [report, Health]

/-- C5: with the settings loaded, Upload answers 401 exactly when the request
carries no Basic credentials or its user name differs from the configured
token; the outcome (response and state) does not depend on the password; and a
401 leaves the state, the storage tree included, unchanged. -/
theorem upload_authentication (dec : Decoder) (w : World) (r : Request) (s : Settings)
    (hs : w.settings = some s) :
    ((Upload dec w r).1.code = 401 ↔
      (r.BasicAuth = none ∨ ∃ u pw, r.BasicAuth = some (u, pw) ∧ u ≠ s.AuthToken)) ∧
    (∀ u pw pw1, r.BasicAuth = some (u, pw) →
      Upload dec w { r with BasicAuth := some (u, pw1) } = Upload dec w r) ∧
    ((Upload dec w r).1.code = 401 → (Upload dec w r).2 = w) := by
  have key : (r.BasicAuth = none ∨ ∃ u pw, r.BasicAuth = some (u, pw) ∧ u ≠ s.AuthToken) →
      (Upload dec w r).1.code = 401 ∧ (Upload dec w r).2 = w := by
    rintro (h | ⟨u, pw, h, hne⟩)
    · simp [Upload, Get_cached w s hs, h, report]
    · simp [Upload, Get_cached w s hs, h, report, ConstantTimeCompare, hne]
  have back : (Upload dec w r).1.code = 401 →
      (r.BasicAuth = none ∨ ∃ u pw, r.BasicAuth = some (u, pw) ∧ u ≠ s.AuthToken) := by
    intro hc
    rcases hb : r.BasicAuth with _ | ⟨u, pw⟩
    · exact Or.inl rfl
    · right
      refine ⟨u, pw, rfl, ?_⟩
      intro hu
      subst hu
      exact upload_code_authorized dec w r s pw hs hb hc
  refine ⟨⟨back, fun h => (key h).1⟩, ?_, fun hc => (key (back hc)).2⟩
  intro u pw pw1 hb
  simp [Upload, hb]
theorem decodeString_hex (n : Nat) : ∀ (h : Str), h.length = 2 * n → (∀ c ∈ h, isLowerHex c) →
    ∃ sum, DecodeString h = some sum := by
  induction n with
  | zero =>
    intro h hl _
    have : h = [] := List.length_eq_zero.1 (by omega)
    subst this
    exact ⟨[], rfl⟩
  | succ n ih =>
    intro h hl hh
    rcases h with _ | ⟨a, _ | ⟨b, t⟩⟩
    · simp at hl
    · simp at hl; omega
    · have hdig : ∀ c, isLowerHex c → ∃ x, fromHexChar c = some x := by
        intro c hc
        unfold fromHexChar
        rcases hc with hc | hc
        · exact ⟨_, if_pos hc⟩
        · by_cases h0 : '0' ≤ c ∧ c ≤ '9'
          · exact ⟨_, if_pos h0⟩
          · rw [if_neg h0]; exact ⟨_, if_pos hc⟩
      obtain ⟨x, hx⟩ := hdig a (hh a (by simp))
      obtain ⟨y, hy⟩ := hdig b (hh b (by simp))
      obtain ⟨bs, hbs⟩ := ih t (by simp at hl; omega) (fun c hc => hh c (by simp [hc]))
      exact ⟨(x * 16 + y) :: bs, by simp [DecodeString, hx, hy, hbs]⟩

/-- C1: an authenticated upload with single project, version and sha512
fields, a digest line of the grammar, a valid file name equal to the declared
name of the uploaded file, and a content whose SHA-512 differs from the digest
decoded from the line is answered with status 400 and leaves the state exactly
as it was: nothing is created, removed or modified in the file system and no
extraction is started. When the line is one reSha512 accepts (no line feed in
the file name) the answer is the tag BADFORM_SHA512_HASH. -/
theorem upload_rejects_digest_mismatch (dec : Decoder) (w : World) (r : Request) (s : Settings)
    (pw : Str) (form : List (Str × List Str)) (pn pv line hash filename : Str) (content : Bytes)
    (hs : w.settings = some s) (ha : r.BasicAuth = some (s.AuthToken, pw))
    (hform : r.Form = some form)
    (hpn : singleValue form "project" = some pn) (hpv : singleValue form "version" = some pv)
    (hline : singleValue form "sha512" = some line)
    (hgram : SpecDigestLine line hash filename)
    (hlen : 4 ≤ len filename) (hslash : ContainsAny filename "/\\".toList = false)
    (hfile : r.File = .file filename content)
    (hsum : DecodeString hash ≠ some (sha512.Sum512 content)) :
    (Upload dec w r).1.code = 400 ∧ (Upload dec w r).2 = w ∧
      (Char.ofNat 10 ∉ filename → Upload dec w r = (report 400 "BADFORM_SHA512_HASH", w)) := by
  by_cases hnl : Char.ofNat 10 ∈ filename
  · have hnil : reSha512.FindStringSubmatch line = [] := by
      by_contra hne
      have hd := digestLine_of_findSubmatch line hne
      rw [← (specDigestLine_parts line hash filename hgram).2] at hd
      exact hd.2 hnl
    have h2 := upload_malformed_line dec w r s pw form pn pv line hs ha hform hpn hpv hline hnil
    rw [h2]
    exact ⟨rfl, rfl, fun h => absurd hnl h⟩
  · obtain ⟨m, hm⟩ := findSubmatch_of_digestLine line hash filename ⟨hgram, hnl⟩
    obtain ⟨m1, -, hlen1, hhex, -⟩ := hgram
    obtain ⟨sum, hdec⟩ := decodeString_hex 64 hash (by omega) hhex
    have hne : ¬ sha512.Sum512 content = sum := by
      intro h; apply hsum; rw [hdec, h]
    have hlen2 : ¬ len filename < 4 := by omega
    have hslash2 : ContainsAny filename ['/', '\\'] = false := hslash
    have : Upload dec w r = (report 400 "BADFORM_SHA512_HASH", w) := by
      simp [Upload, Get_cached w s hs, ha, ConstantTimeCompare_self, hform, hpn, hpv, hline, hm,
        hlen2, hslash2, hfile, hdec, hne]
    rw [this]
    exact ⟨rfl, rfl, fun _ => rfl⟩

/-- C5 (witness): a request without credentials, in a state with the settings
loaded, is answered 401. -/
theorem upload_authentication_witness :
    demoWorld.settings = some demoSettings ∧
      (Upload noArchive demoWorld { uploadRequest "demo" "1.0" "" [] "" [] with
        BasicAuth := none }).1.code = 401 :=
  ⟨rfl, (upload_authentication noArchive demoWorld _ demoSettings rfl).1.2 (Or.inl rfl)⟩

/-- C1 (witness): the text hello uploaded with the digest of the empty
message. -/
theorem upload_rejects_digest_mismatch_witness :
    Upload noArchive demoWorld
        (uploadRequest "demo" "1.0" (emptyDigest ++ " *hello.txt") [] "hello.txt" helloBytes) =
      (report 400 "BADFORM_SHA512_HASH", demoWorld) :=
  (upload_rejects_digest_mismatch noArchive demoWorld
    (uploadRequest "demo" "1.0" (emptyDigest ++ " *hello.txt") [] "hello.txt" helloBytes)
    demoSettings "x".toList _ "demo".toList "1.0".toList
    (emptyDigest ++ " *hello.txt").toList emptyDigest.toList "hello.txt".toList helloBytes
    rfl rfl rfl (by decide) (by decide) (by decide)
    ⟨'*', by decide!, by decide!, by decide!, Or.inl rfl, by decide⟩
    (by decide) (by decide) rfl (by decide!)).2.2 (by decide)

theorem splitPath_ne_nil (s : Str) : splitPath s ≠ [] := by
  cases s with
  | nil => simp [splitPath]
  | cons c s =>
    unfold splitPath
    split
    · simp
    · split <;> simp

theorem splitPath_append (a b : Str) :
    splitPath (a ++ '/' :: b) = splitPath a ++ splitPath b := by
  induction a with
  | nil => simp [splitPath]
  | cons c a ih =>
    rw [List.cons_append, splitPath, ih]
    by_cases hc : c = '/'
    · simp [hc, splitPath]
    · rw [if_neg hc]
      conv_rhs => rw [splitPath, if_neg hc]
      rcases hs : splitPath a with _ | ⟨h, t⟩
      · exact absurd hs (splitPath_ne_nil a)
      · simp

theorem splitPath_noSlash (s : Str) : ∀ c ∈ splitPath s, '/' ∉ c := by
  induction s with
  | nil => simp [splitPath]
  | cons x s ih =>
    unfold splitPath
    by_cases hx : x = '/'
    · rw [if_pos hx]
      intro c hc
      rcases List.mem_cons.1 hc with h | h
      · subst h; simp
      · exact ih c h
    · rw [if_neg hx]
      rcases hs : splitPath s with _ | ⟨h, t⟩
      · exact absurd hs (splitPath_ne_nil s)
      · rw [hs] at ih
        intro c hc
        rcases List.mem_cons.1 hc with h1 | h1
        · subst h1
          have := ih h (by simp)
          simp only [List.mem_cons, not_or]
          exact ⟨fun e => hx e.symm, this⟩
        · exact ih c (by simp [h1])

theorem splitPath_of_noSlash (s : Str) (h : '/' ∉ s) : splitPath s = [s] := by
  induction s with
  | nil => rfl
  | cons x s ih =>
    have hx : ¬ x = '/' := fun e => h (by simp [e])
    have hs : '/' ∉ s := fun e => h (by simp [e])
    rw [splitPath, if_neg hx, ih hs]

theorem splitPath_joinPath (ls : List Str) (hne : ls ≠ []) (h : ∀ l ∈ ls, '/' ∉ l) :
    splitPath (joinPath ls) = ls := by
  induction ls with
  | nil => exact absurd rfl hne
  | cons a rest ih =>
    cases rest with
    | nil => simpa [joinPath] using splitPath_of_noSlash a (h a (by simp))
    | cons b rest =>
      rw [joinPath, splitPath_append, splitPath_of_noSlash a (h a (by simp)),
        ih (by simp) (fun l hl => h l (by simp [hl]))]
      rfl

theorem splitPath_head (s : Str) (y : Char) (h : Str) (ts : List Str)
    (hs : splitPath s = (y :: h) :: ts) : ∃ s1, s = y :: s1 := by
  cases s with
  | nil => simp [splitPath] at hs
  | cons x s =>
    unfold splitPath at hs
    by_cases hx : x = '/'
    · rw [if_pos hx] at hs; simp at hs
    · rw [if_neg hx] at hs
      rcases hs1 : splitPath s with _ | ⟨h1, t1⟩
      · exact absurd hs1 (splitPath_ne_nil s)
      · rw [hs1] at hs
        simp at hs
        exact ⟨s, by rw [hs.1.1]⟩

theorem dotdot_not_mem_splitPath (n : Str) (h : Contains n "..".toList = false) :
    ['.', '.'] ∉ splitPath n := by
  induction n with
  | nil => simp [splitPath]
  | cons x s ih =>
    have h1 : startsWith (x :: s) ['.', '.'] = false ∧ Contains s ['.', '.'] = false := by
      have : Contains (x :: s) ['.', '.'] = false := h
      rw [Contains] at this
      simpa using this
    have ih1 := ih h1.2
    unfold splitPath
    by_cases hx : x = '/'
    · rw [if_pos hx]
      intro hm
      rcases List.mem_cons.1 hm with e | e
      · simp at e
      · exact ih1 e
    · rw [if_neg hx]
      rcases hs : splitPath s with _ | ⟨hd, tl⟩
      · exact absurd hs (splitPath_ne_nil s)
      · rw [hs] at ih1
        intro hm
        rcases List.mem_cons.1 hm with e | e
        · have e1 : x = '.' ∧ hd = ['.'] := by
            simp at e; exact ⟨e.1.symm, e.2.symm⟩
          obtain ⟨s1, hs1⟩ := splitPath_head s '.' [] tl (by rw [hs, e1.2])
          have := h1.1
          rw [e1.1, hs1] at this
          simp [startsWith] at this
        · exact ih1 (by simp [e])

theorem Clean_eq (path : Str) (h : path ≠ []) :
    Clean path = render (IsAbs path) ((splitPath path).foldl (cleanStep (IsAbs path)) []) := by
  simp only [Clean, if_neg h, render, IsAbs]
  by_cases hr : path.head? = some '/' <;> simp [hr]

theorem cleanStep_good (r : Bool) (out : List Str) (c : Str) (hc : '/' ∉ c) (h : GoodOut out) :
    GoodOut (cleanStep r out c) := by
  unfold cleanStep
  by_cases h1 : c = [] ∨ c = ['.']
  · rw [if_pos h1]; exact h
  · rw [if_neg h1]
    have hn : named c = true := by
      simp only [not_or] at h1
      simp [named, h1.1, h1.2]
    have hpush : GoodOut (out ++ [c]) := by
      intro x hx
      rcases List.mem_append.1 hx with hx | hx
      · exact h x hx
      · simp at hx; subst hx; exact ⟨hn, hc⟩
    have hpop : GoodOut out.dropLast := fun x hx => h x (List.dropLast_subset out hx)
    by_cases h2 : c = ['.', '.']
    · rw [if_pos h2]
      split
      · split
        · exact hpush
        · exact hpop
      · split
        · exact h
        · exact hpush
    · rw [if_neg h2]; exact hpush

theorem foldl_cleanStep_good (r : Bool) (cs : List Str) (out : List Str)
    (hcs : ∀ c ∈ cs, '/' ∉ c) (h : GoodOut out) : GoodOut (cs.foldl (cleanStep r) out) := by
  induction cs generalizing out with
  | nil => exact h
  | cons c cs ih =>
    exact ih _ (fun x hx => hcs x (by simp [hx])) (cleanStep_good r out c (hcs c (by simp)) h)

theorem foldl_cleanStep_noDotDot (r : Bool) (cs : List Str) (out : List Str)
    (hcs : ['.', '.'] ∉ cs) : cs.foldl (cleanStep r) out = out ++ cs.filter named := by
  induction cs generalizing out with
  | nil => simp
  | cons c cs ih =>
    have hc : ¬ c = ['.', '.'] := fun e => hcs (by simp [e])
    rw [List.foldl_cons, ih _ (fun e => hcs (by simp [e]))]
    unfold cleanStep
    by_cases h1 : c = [] ∨ c = ['.']
    · rw [if_pos h1]
      have : named c = false := by
        rcases h1 with h1 | h1 <;> simp [named, h1]
      simp [List.filter_cons, this]
    · rw [if_neg h1, if_neg hc]
      have : named c = true := by
        simp only [not_or] at h1
        simp [named, h1.1, h1.2]
      simp [List.filter_cons, this]

theorem components_render (r : Bool) (out : List Str) (h : GoodOut out) :
    components (render r out) = out := by
  have hfilter : out.filter (fun c => !(c.isEmpty || c == ['.'])) = out :=
    List.filter_eq_self.2 fun c hc => (h c hc).1
  unfold components render
  by_cases hr : r = true
  · rw [if_pos hr]
    rcases out with _ | ⟨a, rest⟩
    · rfl
    · have : splitPath ('/' :: joinPath (a :: rest)) = [] :: (a :: rest) := by
        have := splitPath_append [] (joinPath (a :: rest))
        rw [List.nil_append] at this
        rw [this, splitPath_joinPath _ (by simp) (fun l hl => (h l hl).2)]
        rfl
      rw [this, List.filter_cons]
      simpa using hfilter
  · rw [if_neg hr]
    rcases out with _ | ⟨a, rest⟩
    · rfl
    · rw [if_neg (by simp), splitPath_joinPath _ (by simp) (fun l hl => (h l hl).2)]
      exact hfilter

theorem joinPath_head (a : Str) (rest : List Str) (ha : a ≠ []) :
    (joinPath (a :: rest)).head? = a.head? := by
  cases rest with
  | nil => rfl
  | cons b rest =>
    rw [joinPath]
    cases a with
    | nil => exact absurd rfl ha
    | cons x a => rfl

theorem IsAbs_render (r : Bool) (out : List Str) (h : GoodOut out) :
    IsAbs (render r out) = r := by
  unfold render IsAbs
  by_cases hr : r = true
  · simp [hr]
  · rw [if_neg hr]
    have hr2 : r = false := by simpa using hr
    rcases out with _ | ⟨a, rest⟩
    · simp [hr2]
    · have ha := h a (by simp)
      have hne : a ≠ [] := by
        intro e; rw [e] at ha; simp [named] at ha
      rw [if_neg (by simp), joinPath_head a rest hne, hr2]
      cases a with
      | nil => exact absurd rfl hne
      | cons x a =>
        have : ¬ x = '/' := fun e => ha.2 (by simp [e])
        simp [this]

theorem Join_two (d n : Str) (hd : d ≠ []) : Join [d, n] = Clean (d ++ '/' :: n) := by
  cases d with
  | nil => exact absurd rfl hd
  | cons x d => rfl

/-- C10: for a non-empty destination path d and an entry name n without ".."
as a substring, the target filepath.Join(d, n) has the named elements of
Clean(d) as a prefix of its own, contains ".." exactly as often as Clean(d)
does, and is absolute exactly when Clean(d) is. -/
theorem join_stays_beneath (d n : Str) (hd : d ≠ []) (hn : Contains n "..".toList = false) :
    components (Clean d) <+: components (Join [d, n]) ∧
      (components (Join [d, n])).count ['.', '.'] = (components (Clean d)).count ['.', '.'] ∧
      IsAbs (Join [d, n]) = IsAbs (Clean d) := by
  have hne : d ++ '/' :: n ≠ [] := by simp
  have habs : IsAbs (d ++ '/' :: n) = IsAbs d := by
    cases d with
    | nil => exact absurd rfl hd
    | cons x d => rfl
  have hnd := dotdot_not_mem_splitPath n hn
  have hg : GoodOut ((splitPath d).foldl (cleanStep (IsAbs d)) []) :=
    foldl_cleanStep_good _ _ _ (splitPath_noSlash d) (by intro c hc; simp at hc)
  have hg2 : GoodOut ((splitPath d).foldl (cleanStep (IsAbs d)) [] ++ (splitPath n).filter named) := by
    intro c hc
    rcases List.mem_append.1 hc with hc | hc
    · exact hg c hc
    · have := List.mem_filter.1 hc
      exact ⟨this.2, splitPath_noSlash n c this.1⟩
  rw [Join_two d n hd, Clean_eq _ hne, Clean_eq d hd, habs, splitPath_append, List.foldl_append,
    foldl_cleanStep_noDotDot _ _ _ hnd, components_render _ _ hg, components_render _ _ hg2,
    IsAbs_render _ _ hg, IsAbs_render _ _ hg2]
  refine ⟨List.prefix_append _ _, ?_, rfl⟩
  rw [List.count_append]
  have : ((splitPath n).filter named).count ['.', '.'] = 0 :=
    List.count_eq_zero.2 fun hm => hnd (List.mem_filter.1 hm).1
  omega

theorem join_stays_beneath_witness :
    components (Clean "dest".toList) <+: components (Join ["dest".toList, "/etc/passwd".toList]) :=
  (join_stays_beneath "dest".toList "/etc/passwd".toList (by decide) (by decide)).1

/-- C9 (the code at the failing input): linkArchive, whose only member is a
symbolic link to a name that does not exist, is uploaded with extract=1 and
acknowledged with 200 OK; the identical request repeated at once fails with
500 EXTRACT. -/
theorem repeated_upload_fails_on_dangling_link :
    (Upload demoDecoder demoWorld
        (uploadRequest "demo" "1.0" (linkArchiveDigest ++ " *a.tgz") [("extract", "1")] "a.tgz"
          linkArchive)).1 = Health ∧
      (Upload demoDecoder afterLinkUpload
        (uploadRequest "demo" "1.0" (linkArchiveDigest ++ " *a.tgz") [("extract", "1")] "a.tgz"
          linkArchive)).1 = report 500 "EXTRACT" ∧
      Stat afterLinkUpload.fs ["srv".toList] "data/demo/demo-1.0/cur".toList = .error .ENOENT ∧
      Lstat afterLinkUpload.fs ["srv".toList] "data/demo/demo-1.0/cur".toList =
        .ok (.symlink "missing".toList) := by
  refine ⟨by decide!, by decide!, by decide!, by decide!⟩

/-! ## The file system table -/

theorem lookup_filter_ne (fs : FS) (k q : Key) :
    (fs.filter fun e => !(e.1 == k)).lookup q = if q = k then none else fs.lookup q := by
  induction fs with
  | nil => simp
  | cons e fs ih =>
    obtain ⟨a, n⟩ := e
    by_cases hak : a = k
    · subst hak
      simp only [List.filter_cons, beq_self_eq_true, Bool.not_true, Bool.false_eq_true, if_false, ih]
      by_cases hq : q = a
      · simp [hq]
      · have : (q == a) = false := by simpa using hq
        simp [hq, List.lookup, this]
    · have h1 : (a == k) = false := by simpa using hak
      simp only [List.filter_cons, h1, Bool.not_false, if_true, List.lookup]
      by_cases hq : q = a
      · subst hq
        simp [hak]
      · have : (q == a) = false := by simpa using hq
        simp [this, ih]

theorem get_erase (fs : FS) (k q : Key) :
    (fs.erase k).get q = if q = k ∧ q ≠ [] then none else fs.get q := by
  unfold FS.get FS.erase
  by_cases hq : q = []
  · simp [hq]
  · rw [if_neg hq, if_neg hq, lookup_filter_ne]
    by_cases hk : q = k
    · subst hk; simp [hq]
    · simp [hk]

theorem get_set (fs : FS) (k q : Key) (n : Node) (hk : k ≠ []) :
    (fs.set k n).get q = if q = k then some n else fs.get q := by
  unfold FS.set
  by_cases hq : q = k
  · subst hq
    simp [FS.get, hk, List.lookup]
  · have h1 : (q == k) = false := by simpa using hq
    have h2 := get_erase fs k q
    unfold FS.get at h2 ⊢
    by_cases hq0 : q = []
    · subst hq0
      have : ¬ ([] : Key) = k := hq
      simp [this]
    · simp only [hq0, if_false, List.lookup, h1, hq] at h2 ⊢
      simpa using h2

theorem get_root (fs : FS) : fs.get [] = some (.dir 493 none) := by
  simp [FS.get]

/-! ## Path resolution -/

theorem walk_node (fs : FS) (fl : Bool) (comps : List Str) :
    ∀ (cur k : Key) (n : Option Node), walk fs fl cur comps = .done k n → n = fs.get k := by
  induction comps with
  | nil =>
    intro cur k n h
    simp only [walk, Walk.done.injEq] at h
    rw [← h.1, ← h.2]
  | cons c rest ih =>
    intro cur k n h
    rw [walk] at h
    split at h
    · exact ih _ _ _ h
    · split at h
      · exact ih _ _ _ h
      · split at h
        · rename_i hg
          split at h
          · simp only [Walk.done.injEq] at h
            rw [← h.1, ← h.2, hg]
          · simp at h
        · exact ih _ _ _ h
        · rename_i hg
          split at h
          · simp only [Walk.done.injEq] at h
            rw [← h.1, ← h.2, hg]
          · simp at h
        · rename_i hg
          split at h
          · simp only [Walk.done.injEq] at h
            rw [← h.1, ← h.2, hg]
          · split at h <;> simp at h

theorem resolveFrom_node (fs : FS) (fl : Bool) (fuel : Nat) :
    ∀ (cur : Key) (comps : List Str) (k : Key) (n : Option Node),
      resolveFrom fs fl fuel cur comps = .ok (k, n) → n = fs.get k := by
  induction fuel with
  | zero => intro cur comps k n h; simp [resolveFrom] at h
  | succ fuel ih =>
    intro cur comps k n h
    rw [resolveFrom] at h
    split at h
    · rename_i hw
      simp only [Except.ok.injEq, Prod.mk.injEq] at h
      rw [← h.1, ← h.2]
      exact walk_node fs fl comps cur _ _ hw
    · exact ih _ _ _ _ h
    · simp at h

theorem resolve_node (fs : FS) (cwd : Key) (fl : Bool) (path : Str) (k : Key) (n : Option Node)
    (h : resolve fs cwd fl path = .ok (k, n)) : n = fs.get k := by
  unfold resolve at h
  split at h
  · simp at h
  · exact resolveFrom_node fs fl _ _ _ _ _ h

theorem resolve_ne_root (fs : FS) (cwd : Key) (fl : Bool) (path : Str) (k : Key) (n : Option Node)
    (h : resolve fs cwd fl path = .ok (k, n)) (hn : ∀ m t, n ≠ some (.dir m t)) : k ≠ [] := by
  intro hk
  have := resolve_node fs cwd fl path k n h
  rw [hk, get_root] at this
  exact hn _ _ this

theorem walk_skip (fs : FS) (fl : Bool) (cur : Key) (rest : List Str) :
    walk fs fl cur ([] :: rest) = walk fs fl cur rest := by
  rw [walk]; simp

theorem plain_ne (c : Str) (h : plain c = true) :
    ¬ (c = [] ∨ c = ['.']) ∧ ¬ c = ['.', '.'] := by
  simp only [plain, Bool.not_eq_true', Bool.or_eq_false_iff, List.isEmpty_eq_false,
    beq_eq_false_iff_ne] at h
  exact ⟨fun e => e.elim h.1.1 h.1.2, h.2⟩

theorem walk_plain (fs : FS) (fl : Bool) :
    ∀ (names : List Str) (cur : Key), (∀ c ∈ names, plain c = true) → names ≠ [] →
      linksFree fs fl cur names = true →
      (dirsTo fs cur names = true →
        walk fs fl cur names = .done (cur ++ names) (fs.get (cur ++ names))) ∧
      (dirsTo fs cur names = false → ∃ e, walk fs fl cur names = .fail e) := by
  intro names
  induction names with
  | nil => intro cur _ h; exact absurd rfl h
  | cons c rest ih =>
    intro cur hp _ hl
    obtain ⟨hc1, hc2⟩ := plain_ne c (hp c (by simp))
    cases rest with
    | nil =>
      refine ⟨fun _ => ?_, fun h => by simp [dirsTo] at h⟩
      rw [walk, if_neg hc1, if_neg hc2]
      rcases hg : fs.get (cur ++ [c]) with _ | ⟨m, t⟩ | ⟨d, m, t⟩ | t
      · simp
      · simp [walk, hg]
      · simp
      · simp only [linksFree, isLinkAt, hg, Bool.not_true, Bool.or_false, Bool.not_eq_true'] at hl
        simp [hl]
    | cons c2 rest2 =>
      have hp2 : ∀ x ∈ c2 :: rest2, plain x = true := fun x hx => hp x (by simp [hx])
      simp only [linksFree, Bool.and_eq_true, Bool.not_eq_true'] at hl
      have ih2 := ih (cur ++ [c]) hp2 (by simp) hl.2
      rw [List.append_assoc, List.singleton_append] at ih2
      rw [walk, if_neg hc1, if_neg hc2]
      rcases hg : fs.get (cur ++ [c]) with _ | ⟨m, t⟩ | ⟨d, m, t⟩ | t
      · simp [dirsTo, isDirAt, hg]
      · simpa [dirsTo, isDirAt, hg] using ih2
      · simp [dirsTo, isDirAt, hg]
      · simp [isLinkAt, hg] at hl

theorem resolve_plain (fs : FS) (cwd : Key) (fl : Bool) (path : Str) (start : Key)
    (names : List Str) (hp : LexPath cwd path start names)
    (hl : linksFree fs fl start names = true) :
    (dirsTo fs start names = true →
      resolve fs cwd fl path = .ok (start ++ names, fs.get (start ++ names))) ∧
    (dirsTo fs start names = false → ∃ e, resolve fs cwd fl path = .error e) := by
  obtain ⟨hne, hsp, hst, hpl, hnn⟩ := hp
  have hw := walk_plain fs fl names start hpl hnn hl
  have hw2 : walk fs fl start (splitPath path) = walk fs fl start names := by
    rcases hsp with h | h
    · rw [h]
    · rw [h, walk_skip]
  unfold resolve
  rw [if_neg hne, ← hst, resolveFrom, hw2]
  constructor
  · intro hd
    rw [hw.1 hd]
  · intro hd
    obtain ⟨e, he⟩ := hw.2 hd
    exact ⟨e, by rw [he]⟩

theorem Upd_set (fs : FS) (k : Key) (n : Node) (hk : k ≠ []) : Upd fs (fs.set k n) k (some n) :=
  fun q => get_set fs k q n hk

theorem lexPath_key_ne (cwd : Key) (path : Str) (start : Key) (names : List Str)
    (hp : LexPath cwd path start names) : start ++ names ≠ [] := by
  obtain ⟨-, -, -, -, hnn⟩ := hp
  simp [hnn]

theorem Symlink_lex (fs fs1 : FS) (cwd : Key) (target path : Str) (start : Key)
    (names : List Str) (hp : LexPath cwd path start names)
    (hl : linksFree fs false start names = true) (h : Symlink fs cwd target path = .ok fs1) :
    dirsTo fs start names = true ∧ fs.get (start ++ names) = none ∧
      Upd fs fs1 (start ++ names) (some (.symlink target)) := by
  have hr := resolve_plain fs cwd false path start names hp hl
  unfold Symlink at h
  cases hd : dirsTo fs start names with
  | false =>
    obtain ⟨e, he⟩ := hr.2 hd
    rw [he] at h
    simp at h
  | true =>
    rw [hr.1 hd] at h
    rcases hg : fs.get (start ++ names) with _ | n
    · rw [hg] at h
      simp only [Except.ok.injEq] at h
      rw [← h]
      exact ⟨rfl, rfl, Upd_set fs _ _ (lexPath_key_ne cwd path start names hp)⟩
    · rw [hg] at h
      simp at h

theorem Grow_isDirAt (fs fs1 : FS) (k : Key) (n : Nat) (h : Grow fs fs1 k n) (q : Key)
    (hq : isDirAt fs q = true) : isDirAt fs1 q = true := by
  rcases h q with h1 | ⟨h0, -⟩
  · simpa [isDirAt, h1] using hq
  · simp [isDirAt, h0] at hq

end Distfiles
